import Mathlib

/-!
Verification development for `dxf` (package `dxf`, file `dxf.go`)

Shallow embedding of `ColorIndex`, `IndexColor` and `Open`.

* Go `int` is the 64-bit two's-complement integer; arithmetic results are
  reduced by `wrap64`.
* An index-out-of-range or nil-dereference run-time panic is an explicit
  result (`none`, `Outcome.nilDeref`).
* The palette `color.ColorRGB`, the registry lookup
  `drawing.SectionTypeValue`, the section parsers (`Section.Read`) and the
  library functions `strings.ToUpper` / `strings.TrimSpace` are parameters.
-/

set_option maxRecDepth 100000

namespace Dxf

/-! ## Colour quantizer -/

/-- Reduction of a mathematical integer to the Go `int` (64-bit, signed) it is
stored as: `(x + 2^63) mod 2^64 - 2^63`. -/
def wrap64 (x : Int) : Int :=
  (x + 9223372036854775808) % 18446744073709551616 - 9223372036854775808

/-- A palette entry, `[]uint8` in the source: a list of bytes. -/
abbrev Entry := List Nat

/-- The palette table `color.ColorRGB`: a sequence of entries. -/
abbrev Palette := List Entry

/-- One round of the inner loop of `ColorIndex`:
`tmpval += (cl[j] - int(c[j])) * (cl[j] - int(c[j]))`; `none` when `cl[j]` or
`c[j]` is out of range. -/
def addSquare (cl : List Int) (c : Entry) (j : Nat) (tmpval : Int) : Option Int :=
  match cl.get? j, c.get? j with
  | some a, some b =>
    some (wrap64 (tmpval + wrap64 (wrap64 (a - (b : Int)) * wrap64 (a - (b : Int)))))
  | _, _ => none

/-- The inner loop of `ColorIndex`, `for j := 0; j < 3; j++`, from `tmpval := 0`. -/
def tmpvalOf (cl : List Int) (c : Entry) : Option Int :=
  (addSquare cl c 0 0).bind fun t0 =>
  (addSquare cl c 1 t0).bind fun t1 =>
  addSquare cl c 2 t1

/-- The outer loop of `ColorIndex` from palette position `i` on, with the
current `minind` and `minval`; the result is the final `minind`. -/
def colorScan (cl : List Int) : Palette → Nat → Nat → Int → Option Nat
  | [], _, minind, _ => some minind
  | c :: rest, i, minind, minval =>
    match tmpvalOf cl c with
    | none => none
    | some tmpval =>
      if tmpval < minval then
        if tmpval = 0 then some i
        else colorScan cl rest (i + 1) i tmpval
      else colorScan cl rest (i + 1) minind minval

/-- Modelled from the spec: the type `color.ColorNumber` is declared outside
the sources at hand; the palette index is an 8-bit value, so the conversion
`color.ColorNumber(minind)` keeps the low eight bits. -/
def ColorNumber (n : Nat) : Nat := n % 256

/-- The function `ColorIndex` over the palette `pal` (`color.ColorRGB`). -/
def ColorIndex (pal : Palette) (cl : List Int) : Option Nat :=
  (colorScan cl pal 0 0 1000000).map ColorNumber

/-- The function `IndexColor`: `color.ColorRGB[index]` for an 8-bit `index`. -/
def IndexColor (pal : Palette) (index : Nat) : Option Entry :=
  pal[index % 256]?

/-- The scan of `ColorIndex` as the spec words it, carried over the whole
palette: only a strict `<` improvement replaces the running minimum, and
there is no early exit. -/
def fullScan (cl : List Int) : Palette → Nat → Nat → Int → Option Nat
  | [], _, minind, _ => some minind
  | c :: rest, i, minind, minval =>
    match tmpvalOf cl c with
    | none => none
    | some tmpval =>
      if tmpval < minval then fullScan cl rest (i + 1) i tmpval
      else fullScan cl rest (i + 1) minind minval

/-- The function `ColorIndex` without the early exit. -/
def ColorIndexFull (pal : Palette) (cl : List Int) : Option Nat :=
  (fullScan cl pal 0 0 1000000).map ColorNumber

/-- Squared Euclidean distance in RGB space between a triple and a palette
entry (mathematical integers, first three components). -/
def sqDist (cl : List Int) (c : Entry) : Int :=
  (cl.getD 0 0 - (c.getD 0 0 : Int)) ^ 2 + (cl.getD 1 0 - (c.getD 1 0 : Int)) ^ 2
    + (cl.getD 2 0 - (c.getD 2 0 : Int)) ^ 2

/-- A palette of RGB byte triples. -/
def WfPalette (pal : Palette) : Prop :=
  ∀ e ∈ pal, e.length = 3 ∧ ∀ x ∈ e, x < 256

instance (pal : Palette) : Decidable (WfPalette pal) :=
  inferInstanceAs (Decidable (∀ e ∈ pal, e.length = 3 ∧ ∀ x ∈ e, x < 256))

/-- The components of a palette entry as Go `int`s. -/
def toInts (e : Entry) : List Int := e.map Int.ofNat

/-- A two-entry palette: black, white. -/
def smallPal : Palette := [[0, 0, 0], [255, 255, 255]]

/-- A two-entry palette: black, then the darkest red. -/
def darkPal : Palette := [[0, 0, 0], [1, 0, 0]]

/-- A 256-entry palette whose entry 10 repeats the red of entry 1. -/
def dupPal : Palette :=
  [[0, 0, 0], [255, 0, 0], [255, 255, 0], [0, 255, 0], [0, 255, 255], [0, 0, 255],
    [255, 0, 255], [255, 255, 255], [65, 65, 65], [128, 128, 128], [255, 0, 0]]
  ++ (List.range 245).map fun k => [k, 7, 100]

/-! ## Section dispatcher (`Open`) -/

/-- A buffered tag, `[2]string{code, value}`. -/
abbrev Tag := String × String

/-- One invocation `reader.Read(startline, data)`. `slot` is the index in
`d.Sections` of the section held by `reader`, `none` while `reader` is nil. -/
structure Call where
  slot : Option Int
  startline : Nat
  data : List Tag
  deriving DecidableEq

/-- What `Open` uses from outside `dxf.go`, over a drawing type `D`. -/
structure Env (D : Type) where
  /-- The library function `strings.ToUpper`. -/
  ToUpper : String → String
  /-- The library function `strings.TrimSpace`. -/
  TrimSpace : String → String
  /-- The registry lookup `drawing.SectionTypeValue`. -/
  SectionTypeValue : String → Int
  /-- The drawing built by `drawing.New()`. -/
  NewDrawing : D
  /-- The method `d.Sections[ind].Read(startline, data)`: the error it returns,
  if any, and the drawing after the call. -/
  Read : Int → Nat → List Tag → D → Option String × D

/-- How a run of `Open` ends: `return d, nil`, `return d, err`, or the
run-time panic of a method call on the nil `reader`. -/
inductive Outcome where
  | ok
  | error (msg : String)
  | nilDeref
  deriving DecidableEq

/-- The result of `Open`: the outcome, the drawing returned (`none` for the
nil pointer) and the parser calls made, in order. -/
structure Result (D : Type) where
  outcome : Outcome
  d : Option D
  calls : List Call

/-- The local variables of `Open` between two lines, and the calls made so far. -/
structure State (D : Type) where
  d : D
  code : String
  reader : Option Int
  data : List Tag
  setreader : Bool
  line : Nat
  startline : Nat
  calls : List Call

/-- One pass through the loop body either goes on to the next line or returns. -/
inductive Step (D : Type) where
  | next (s : State D)
  | ret (r : Result D)

/-- An input file as the scanner delivers it: the lines for which `Scan`
returns true and the error `scanner.Err()` reports afterwards. -/
structure Stream where
  lines : List String
  scanErr : Option String

/-- The error `fmt.Errorf("line %d: invalid group code: %s", line, code)`. -/
def invalidGroupCode (line : Nat) (code : String) : String :=
  "line " ++ toString line ++ ": invalid group code: " ++ code

/-- The error `fmt.Errorf("line %d: unknown section name: %s", line, value)`. -/
def unknownSectionName (line : Nat) (value : String) : String :=
  "line " ++ toString line ++ ": unknown section name: " ++ value

/-- The call record of `reader.Read(startline, data)` in state `s`. -/
def callOf {D : Type} (s : State D) : Call := ⟨s.reader, s.startline, s.data⟩

/-- The call `err := reader.Read(startline, data)` in state `s`. -/
def invoke {D : Type} (env : Env D) (s : State D) : Outcome × D :=
  match s.reader with
  | none => (Outcome.nilDeref, s.d)
  | some i =>
    match env.Read i s.startline s.data s.d with
    | (some e, d) => (Outcome.error e, d)
    | (none, d) => (Outcome.ok, d)

/-- The body of `for scanner.Scan()` on the line `text`. The test of `err`
in the odd-line branch reads the variable assigned by `os.Open`, which is nil
inside the loop, so that branch never returns. -/
def stepLine {D : Type} (env : Env D) (s : State D) (text : String) : Step D :=
  let line := s.line + 1
  if line % 2 = 1 then
    Step.next { s with line := line, code := env.TrimSpace text }
  else
    let value := text
    if s.setreader then
      if s.code ≠ "2" then
        Step.ret ⟨Outcome.error (invalidGroupCode line s.code), some s.d, s.calls⟩
      else
        let ind := env.SectionTypeValue (env.ToUpper value)
        if ind < 0 then
          Step.ret ⟨Outcome.error (unknownSectionName line value), some s.d, s.calls⟩
        else
          Step.next { s with line := line, reader := some ind, startline := line + 1,
                             setreader := false }
    else if s.code = "0" then
      let u := env.ToUpper value
      if u = "EOF" then Step.ret ⟨Outcome.ok, some s.d, s.calls⟩
      else if u = "SECTION" then Step.next { s with line := line, setreader := true }
      else if u = "ENDSEC" then
        match invoke env s with
        | (Outcome.ok, d) =>
          Step.next { s with line := line, d := d, data := [], startline := line + 1,
                             calls := s.calls ++ [callOf s] }
        | (o, d) => Step.ret ⟨o, some d, s.calls ++ [callOf s]⟩
      else Step.next { s with line := line, data := s.data ++ [(s.code, text)] }
    else Step.next { s with line := line, data := s.data ++ [(s.code, text)] }

/-- The loop `for scanner.Scan() { ... }` over the remaining lines. -/
def runLines {D : Type} (env : Env D) : State D → List String → Step D
  | s, [] => Step.next s
  | s, l :: ls =>
    match stepLine env s l with
    | Step.next s' => runLines env s' ls
    | Step.ret r => Step.ret r

/-- After the loop: the scanner error, the flush of a non-empty buffer, `return d, nil`. -/
def finish {D : Type} (env : Env D) (scanErr : Option String) (s : State D) : Result D :=
  match scanErr with
  | some e => ⟨Outcome.error e, some s.d, s.calls⟩
  | none =>
    if s.data.length > 0 then
      match invoke env s with
      | (o, d) => ⟨o, some d, s.calls ++ [callOf s]⟩
    else ⟨Outcome.ok, some s.d, s.calls⟩

/-- The variables of `Open` before the first line. -/
def initState {D : Type} (env : Env D) : State D :=
  { d := env.NewDrawing, code := "", reader := none, data := [], setreader := false,
    line := 0, startline := 0, calls := [] }

/-- The function `Open` on the result of `os.Open(filename)`: its error, or the stream of
the opened file. -/
def Open {D : Type} (env : Env D) (file : Except String Stream) : Result D :=
  match file with
  | Except.error e => ⟨Outcome.error e, none, []⟩
  | Except.ok f =>
    match runLines env (initState env) f.lines with
    | Step.ret r => r
    | Step.next s => finish env f.scanErr s

/-- The lines of a sequence of tags: code line, value line. -/
def linesOf : List Tag → List String
  | [] => []
  | (c, v) :: ts => c :: v :: linesOf ts

/-! ### Well-formed streams -/

/-- A tag that `Open` buffers outside a header: not a code-0 tag whose
upper-cased value is `EOF`, `SECTION` or `ENDSEC`. -/
def IsPlain {D : Type} (env : Env D) (t : Tag) : Prop :=
  ¬ (env.TrimSpace t.1 = "0" ∧
      (env.ToUpper t.2 = "EOF" ∨ env.ToUpper t.2 = "SECTION" ∨ env.ToUpper t.2 = "ENDSEC"))

instance {D : Type} (env : Env D) (t : Tag) : Decidable (IsPlain env t) :=
  inferInstanceAs (Decidable (¬ (env.TrimSpace t.1 = "0" ∧
      (env.ToUpper t.2 = "EOF" ∨ env.ToUpper t.2 = "SECTION" ∨ env.ToUpper t.2 = "ENDSEC"))))

/-- One section of a stream as written: the `0/SECTION` tag, the name tag,
the body tags and the `0/ENDSEC` tag. -/
structure Sec where
  start : Tag
  name : Tag
  body : List Tag
  stop : Tag

/-- The lines of a section. -/
def Sec.lines (x : Sec) : List String :=
  x.start.1 :: x.start.2 :: x.name.1 :: x.name.2 :: (linesOf x.body ++ [x.stop.1, x.stop.2])

/-- The lines of a sequence of sections. -/
def streamLines : List Sec → List String
  | [] => []
  | x :: xs => x.lines ++ streamLines xs

/-- A well-formed section: `0/SECTION`, a name tag `2/<name>` whose
upper-cased name is in the registry, plain body tags, `0/ENDSEC`. -/
def WfSec {D : Type} (env : Env D) (x : Sec) : Prop :=
  env.TrimSpace x.start.1 = "0" ∧ env.ToUpper x.start.2 = "SECTION" ∧
  env.TrimSpace x.name.1 = "2" ∧ 0 ≤ env.SectionTypeValue (env.ToUpper x.name.2) ∧
  (∀ t ∈ x.body, IsPlain env t) ∧
  env.TrimSpace x.stop.1 = "0" ∧ env.ToUpper x.stop.2 = "ENDSEC"

instance {D : Type} (env : Env D) (x : Sec) : Decidable (WfSec env x) :=
  inferInstanceAs (Decidable (
    env.TrimSpace x.start.1 = "0" ∧ env.ToUpper x.start.2 = "SECTION" ∧
    env.TrimSpace x.name.1 = "2" ∧ 0 ≤ env.SectionTypeValue (env.ToUpper x.name.2) ∧
    (∀ t ∈ x.body, IsPlain env t) ∧
    env.TrimSpace x.stop.1 = "0" ∧ env.ToUpper x.stop.2 = "ENDSEC"))

/-- A tag as it is buffered: the code trimmed, the value as read. -/
def buffered {D : Type} (env : Env D) (t : Tag) : Tag := (env.TrimSpace t.1, t.2)

/-- The parser calls a sequence of sections stands for, the first section
starting after `off` lines: per section the slot resolved from its name, the
number of the line following its name tag, and its body tags. -/
def expectedCalls {D : Type} (env : Env D) : Nat → List Sec → List Call
  | _, [] => []
  | off, x :: xs =>
    ⟨some (env.SectionTypeValue (env.ToUpper x.name.2)), off + 5, x.body.map (buffered env)⟩
      :: expectedCalls env (off + (2 * x.body.length + 6)) xs

/-- Every call of the list, made in order from drawing `d`, has a section and
returns no error. -/
def allSucceed {D : Type} (env : Env D) : D → List Call → Bool
  | _, [] => true
  | d, c :: cs =>
    match c.slot with
    | none => false
    | some i =>
      match env.Read i c.startline c.data d with
      | (none, d') => allSucceed env d' cs
      | (some _, _) => false

/-- Two sections: `ENTITIES` with one tag, `TABLES` with none. -/
def twoSecs : List Sec :=
  [⟨("0", "SECTION"), ("2", "ENTITIES"), [("0", "VERTEX")], ("0", "ENDSEC")⟩,
   ⟨("0", "SECTION"), ("2", "TABLES"), [], ("0", "ENDSEC")⟩]

/-! ### A concrete environment -/

/-- ASCII upper-casing; on ASCII text it is `strings.ToUpper`. -/
def asciiUpper (s : String) : String := ⟨s.data.map Char.toUpper⟩

/-- Removal of leading and trailing white space. -/
def trimSpaces (s : String) : String :=
  ⟨((s.data.dropWhile Char.isWhitespace).reverse.dropWhile Char.isWhitespace).reverse⟩

/-- Modelled from the spec: `drawing.SectionTypeValue` is outside the sources
at hand; the registry of section names in the order the spec lists them, and a
negative value for every other name. -/
def sampleSectionTypeValue (name : String) : Int :=
  if name = "HEADER" then 0
  else if name = "CLASSES" then 1
  else if name = "TABLES" then 2
  else if name = "BLOCKS" then 3
  else if name = "ENTITIES" then 4
  else if name = "OBJECTS" then 5
  else -1

/-- A drawing that records, per call, the slot and the tags it was given;
its parsers accept everything. -/
def recEnv : Env (List (Int × List Tag)) where
  ToUpper := asciiUpper
  TrimSpace := trimSpaces
  SectionTypeValue := sampleSectionTypeValue
  NewDrawing := []
  Read := fun i _ data d => (none, d ++ [(i, data)])

/-- The same drawing with parsers that reject everything. -/
def failEnv : Env (List (Int × List Tag)) where
  ToUpper := asciiUpper
  TrimSpace := trimSpaces
  SectionTypeValue := sampleSectionTypeValue
  NewDrawing := []
  Read := fun _ _ _ d => (some "bad record", d)

/-- The first three components of `cl` exist and are small enough for the
64-bit arithmetic of `ColorIndex` not to overflow against byte entries. -/
def InRange (cl : List Int) : Prop :=
  3 ≤ cl.length ∧ ∀ j, j < 3 → -1073741824 ≤ cl.getD j 0 ∧ cl.getD j 0 ≤ 1073741824

/-- Index `k` is the lowest-index minimiser of the squared distance to `cl`. -/
def IsFirstMin (cl : List Int) (pal : Palette) (k : Nat) : Prop :=
  k < pal.length ∧
  (∀ j, j < pal.length → sqDist cl (pal.getD k []) ≤ sqDist cl (pal.getD j [])) ∧
  (∀ j, j < k → sqDist cl (pal.getD k []) < sqDist cl (pal.getD j []))

/-- A `0/ENDSEC` tag is reached, outside a header, while `reader` is still
nil: after the lines `a` the loop is at the value line `v` of a tag with code
`0`, `v` upper-cases to `ENDSEC`, and no header has set `reader`. -/
def NilAtEndsec {D : Type} (env : Env D) (lines : List String) : Prop :=
  ∃ (a : List String) (v : String) (rest : List String) (s : State D),
    lines = a ++ v :: rest ∧ runLines env (initState env) a = Step.next s ∧
    s.line % 2 = 1 ∧ s.setreader = false ∧ s.code = "0" ∧ env.ToUpper v = "ENDSEC" ∧
    s.reader = none

/-- The input ends, with no scanner error, on a non-empty buffer while
`reader` is still nil. -/
def NilAtEnd {D : Type} (env : Env D) (lines : List String) (scanErr : Option String) : Prop :=
  scanErr = none ∧
    ∃ s : State D, runLines env (initState env) lines = Step.next s ∧ s.data ≠ [] ∧
      s.reader = none

/-- Two tag sequences that differ at most in the letter case of the values
`Open` matches case-insensitively: the codes are the same, every value has
the same upper-casing, and a value is the same unless its tag is a section
name (the tag after a `0/SECTION`; `hdr` tells whether the first tag is one)
or a code-0 tag whose upper-cased value is `SECTION`, `ENDSEC` or `EOF`. -/
def caseVariant {D : Type} (env : Env D) : Bool → List Tag → List Tag → Prop
  | _, [], [] => True
  | hdr, (c, v) :: ts, (c', v') :: ts' =>
    c = c' ∧ env.ToUpper v = env.ToUpper v' ∧
      (if hdr = true then caseVariant env false ts ts'
       else if env.TrimSpace c = "0" ∧ env.ToUpper v = "SECTION" then
         caseVariant env true ts ts'
       else if env.TrimSpace c = "0" ∧ (env.ToUpper v = "ENDSEC" ∨ env.ToUpper v = "EOF") then
         caseVariant env false ts ts'
       else v = v' ∧ caseVariant env false ts ts')
  | _, _ :: _, [] => False
  | _, [], _ :: _ => False

/-- Two results with the same calls and the same drawing, and the same
outcome up to the text of an error. -/
def sameRun {D : Type} (r r' : Result D) : Prop :=
  r.calls = r'.calls ∧ r.d = r'.d ∧
    (r.outcome = r'.outcome ∨ ∃ m m', r.outcome = Outcome.error m ∧ r'.outcome = Outcome.error m')

instance caseVariant.dec {D : Type} (env : Env D) :
    ∀ (hdr : Bool) (ts ts' : List Tag), Decidable (caseVariant env hdr ts ts')
  | _, [], [] => isTrue trivial
  | hdr, (c, v) :: ts, (c', v') :: ts' =>
    let _ := caseVariant.dec env false ts ts'
    let _ := caseVariant.dec env true ts ts'
    inferInstanceAs (Decidable (c = c' ∧ env.ToUpper v = env.ToUpper v' ∧
      (if hdr = true then caseVariant env false ts ts'
       else if env.TrimSpace c = "0" ∧ env.ToUpper v = "SECTION" then
         caseVariant env true ts ts'
       else if env.TrimSpace c = "0" ∧ (env.ToUpper v = "ENDSEC" ∨ env.ToUpper v = "EOF") then
         caseVariant env false ts ts'
       else v = v' ∧ caseVariant env false ts ts')))
  | _, _ :: _, [] => isFalse id
  | _, [], _ :: _ => isFalse id

/-! ## Vertex (package `entity`, file `vertex.go`)

The type `float64` is a parameter `F`: the code moves coordinates around and
never computes with them. The embedded `*entity` is a parameter `E`. -/

/-- Modelled from the spec: the sink `*format.Formatter` is declared outside
the sources at hand; it accumulates (code, value) pairs, here one entry per
call of `WriteString`, `WriteInt` or `WriteFloat`, with the value still typed. -/
inductive Write (F : Type) where
  | str (code : Nat) (val : String)
  | int (code : Nat) (val : Int)
  | float (code : Nat) (val : F)
  deriving DecidableEq

/-- The struct `Vertex`. -/
structure Vertex (E F : Type) where
  entity : E
  Flag : Int
  Coord : List F

/-- The constructor `NewVertex(x, y, z)`; `newEntity` stands for `NewEntity(VERTEX)`. -/
def NewVertex {E F : Type} (newEntity : E) (x y z : F) : Vertex E F :=
  { entity := newEntity, Flag := 32, Coord := [x, y, z] }

/-- The loop `for i := 0; i < 3; i++ { f.WriteFloat((i+1)*10, v.Coord[i]) }`
with `n` rounds left from index `i`; `none` when `v.Coord[i]` is out of range. -/
def writeCoords {F : Type} (Coord : List F) : Nat → Nat → List (Write F) → Option (List (Write F))
  | 0, _, f => some f
  | n + 1, i, f =>
    match Coord.get? i with
    | none => none
    | some x => writeCoords Coord n (i + 1) (f ++ [Write.float ((i + 1) * 10) x])

/-- The method `Vertex.Format`; `entityFormat` stands for `v.entity.Format(f)`. -/
def Vertex.Format {E F : Type} (entityFormat : E → List (Write F) → List (Write F))
    (v : Vertex E F) (f : List (Write F)) : Option (List (Write F)) :=
  let f1 := entityFormat v.entity f
  let f2 := f1 ++ [Write.str 100 "AcDbVertex"]
  let f3 := f2 ++ [Write.str 100 "AcDb3DPolylineVertex"]
  let f4 := f3 ++ [Write.int 70 v.Flag]
  writeCoords v.Coord 3 0 f4

/-- Modelled from the spec: the flattening of the sink into text tags is
outside the sources at hand; a pair becomes the tag of its code in decimal
and its value as text, the number-to-text conversions `fmtInt` and `fmtFloat`
being parameters. -/
def renderTag {F : Type} (fmtInt : Int → String) (fmtFloat : F → String) : Write F → Tag
  | Write.str code val => (toString code, val)
  | Write.int code val => (toString code, fmtInt val)
  | Write.float code val => (toString code, fmtFloat val)

/-- The fields of a vertex that its tags carry. -/
structure VertexData (F : Type) where
  Flag : Int
  Coord : List F
  deriving DecidableEq

/-- The fields found so far while parsing the tags of a vertex. -/
structure VertexAcc (F : Type) where
  flag : Option Int
  x : Option F
  y : Option F
  z : Option F

/-- The typed errors of the serialization protocol. -/
inductive RecordError where
  | malformedValue (code value : String)
  | missingRequiredField (code : String)
  deriving DecidableEq

/-- Modelled from the spec: the parse-from-tags capability of `Vertex` is
outside the sources at hand. One tag is matched by its group code against the
layout of the type: `70` the flag, `10`, `20`, `30` the coordinates; a value
that cannot be converted is an error, any other code is skipped. -/
def parseTag {F : Type} (parseInt : String → Option Int) (parseFloat : String → Option F)
    (acc : VertexAcc F) (t : Tag) : Except RecordError (VertexAcc F) :=
  if t.1 = "70" then
    match parseInt t.2 with
    | some n => Except.ok { acc with flag := some n }
    | none => Except.error (RecordError.malformedValue t.1 t.2)
  else if t.1 = "10" then
    match parseFloat t.2 with
    | some a => Except.ok { acc with x := some a }
    | none => Except.error (RecordError.malformedValue t.1 t.2)
  else if t.1 = "20" then
    match parseFloat t.2 with
    | some a => Except.ok { acc with y := some a }
    | none => Except.error (RecordError.malformedValue t.1 t.2)
  else if t.1 = "30" then
    match parseFloat t.2 with
    | some a => Except.ok { acc with z := some a }
    | none => Except.error (RecordError.malformedValue t.1 t.2)
  else Except.ok acc

/-- Modelled from the spec: the tags of one record are consumed in order. -/
def parseTags {F : Type} (parseInt : String → Option Int) (parseFloat : String → Option F) :
    VertexAcc F → List Tag → Except RecordError (VertexAcc F)
  | acc, [] => Except.ok acc
  | acc, t :: ts =>
    match parseTag parseInt parseFloat acc t with
    | Except.ok acc' => parseTags parseInt parseFloat acc' ts
    | Except.error e => Except.error e

/-- Modelled from the spec: parse-from-tags for `Vertex`; it fails when a
value cannot be converted or a required code (`70`, `10`, `20`, `30`) is absent. -/
def parseVertex {F : Type} (parseInt : String → Option Int) (parseFloat : String → Option F)
    (tags : List Tag) : Except RecordError (VertexData F) :=
  match parseTags parseInt parseFloat ⟨none, none, none, none⟩ tags with
  | Except.error e => Except.error e
  | Except.ok acc =>
    match acc.flag, acc.x, acc.y, acc.z with
    | none, _, _, _ => Except.error (RecordError.missingRequiredField "70")
    | some _, none, _, _ => Except.error (RecordError.missingRequiredField "10")
    | some _, some _, none, _ => Except.error (RecordError.missingRequiredField "20")
    | some _, some _, some _, none => Except.error (RecordError.missingRequiredField "30")
    | some n, some a, some b, some c => Except.ok ⟨n, [a, b, c]⟩

/-- A sample entity header: the record marker, the handle and the layer. -/
def sampleHeader (_ : Unit) (f : List (Write String)) : List (Write String) :=
  f ++ [Write.str 0 "VERTEX", Write.str 5 "1F", Write.str 8 "0"]

/-- A sample integer conversion, defined on the flags 0 and 32. -/
def sampleFmtInt (n : Int) : String := if n = 32 then "32" else "0"

/-- The inverse sample conversion. -/
def sampleParseInt (s : String) : Option Int :=
  if s = "32" then some 32 else if s = "0" then some 0 else none

/-! ### Lemmas on the colour scan -/

theorem wrap64_id (x : Int) (h1 : -9223372036854775808 ≤ x)
    (h2 : x < 9223372036854775808) : wrap64 x = x := by
  unfold wrap64; omega

theorem sq_le_of_abs (y : Int) (h1 : -1073742079 ≤ y) (h2 : y ≤ 1073742079) :
    0 ≤ y * y ∧ y * y ≤ 2305843009213693952 := by
  constructor
  · exact mul_self_nonneg y
  · nlinarith

theorem sqTerm_eq (a : Int) (p : Nat) (h1 : -1073741824 ≤ a) (h2 : a ≤ 1073741824)
    (hp : p < 256) :
    wrap64 (wrap64 (a - (p : Int)) * wrap64 (a - (p : Int))) = (a - (p : Int)) ^ 2 ∧
      0 ≤ (a - (p : Int)) ^ 2 ∧ (a - (p : Int)) ^ 2 ≤ 2305843009213693952 := by
  have hb1 : -1073742079 ≤ a - (p : Int) := by omega
  have hb2 : a - (p : Int) ≤ 1073742079 := by omega
  obtain ⟨h0, h3⟩ := sq_le_of_abs _ hb1 hb2
  rw [wrap64_id (a - (p : Int)) (by omega) (by omega), wrap64_id _ (by omega) (by omega), sq]
  exact ⟨rfl, h0, h3⟩

theorem sqDist_nonneg (cl : List Int) (e : Entry) : 0 ≤ sqDist cl e := by
  unfold sqDist; positivity

theorem tmpvalOf_eq (cl : List Int) (e : Entry) (hcl : InRange cl)
    (he : e.length = 3 ∧ ∀ x ∈ e, x < 256) : tmpvalOf cl e = some (sqDist cl e) := by
  obtain ⟨hlen, hr⟩ := hcl
  obtain ⟨hel, hb⟩ := he
  match cl, hlen, hr with
  | a :: b :: c :: tl, _, hr =>
    match e, hel, hb with
    | [p, q, r], _, hb =>
      have ha := hr 0 (by omega)
      have hb' := hr 1 (by omega)
      have hc := hr 2 (by omega)
      simp only [List.getD_cons_zero, List.getD_cons_succ] at ha hb' hc
      obtain ⟨e0, n0, u0⟩ := sqTerm_eq a p ha.1 ha.2 (hb p (by simp))
      obtain ⟨e1, n1, u1⟩ := sqTerm_eq b q hb'.1 hb'.2 (hb q (by simp))
      obtain ⟨e2, n2, u2⟩ := sqTerm_eq c r hc.1 hc.2 (hb r (by simp))
      simp only [tmpvalOf, addSquare, List.get?_cons_zero, List.get?_cons_succ, Option.bind,
        sqDist, List.getD_cons_zero, List.getD_cons_succ, e0, e1, e2]
      rw [wrap64_id (0 + (a - (p : Int)) ^ 2) (by omega) (by omega)]
      rw [wrap64_id (0 + (a - (p : Int)) ^ 2 + (b - (q : Int)) ^ 2) (by omega) (by omega)]
      rw [wrap64_id _ (by omega) (by omega)]
      simp
theorem WfPalette.head {e : Entry} {rest : Palette} (h : WfPalette (e :: rest)) :
    e.length = 3 ∧ ∀ x ∈ e, x < 256 :=
  h e (List.mem_cons_self _ _)

theorem WfPalette.tail {e : Entry} {rest : Palette} (h : WfPalette (e :: rest)) :
    WfPalette rest :=
  fun x hx => h x (List.mem_cons_of_mem _ hx)

theorem getD_mem (pal : Palette) (j : Nat) (hj : j < pal.length) : pal.getD j [] ∈ pal := by
  rw [List.getD_eq_getElem pal [] hj]
  exact List.getElem_mem hj

/-- When no entry improves on `minval`, the scan keeps `minind`. -/
theorem colorScan_of_le (cl : List Int) (hcl : InRange cl) :
    ∀ (pal : Palette), WfPalette pal → ∀ (i m : Nat) (v : Int),
      (∀ e ∈ pal, v ≤ sqDist cl e) → colorScan cl pal i m v = some m
  | [], _, _, _, _, _ => rfl
  | e :: rest, hwf, i, m, v, h => by
    have hd := h e (List.mem_cons_self _ _)
    simp only [colorScan, tmpvalOf_eq cl e hcl hwf.head]
    rw [if_neg (not_lt.mpr hd)]
    exact colorScan_of_le cl hcl rest hwf.tail (i + 1) m v
      (fun x hx => h x (List.mem_cons_of_mem _ hx))

/-- The same for the scan without early exit. -/
theorem fullScan_of_le (cl : List Int) (hcl : InRange cl) :
    ∀ (pal : Palette), WfPalette pal → ∀ (i m : Nat) (v : Int),
      (∀ e ∈ pal, v ≤ sqDist cl e) → fullScan cl pal i m v = some m
  | [], _, _, _, _, _ => rfl
  | e :: rest, hwf, i, m, v, h => by
    have hd := h e (List.mem_cons_self _ _)
    simp only [fullScan, tmpvalOf_eq cl e hcl hwf.head]
    rw [if_neg (not_lt.mpr hd)]
    exact fullScan_of_le cl hcl rest hwf.tail (i + 1) m v
      (fun x hx => h x (List.mem_cons_of_mem _ hx))

/-- Without overflow the early exit does not change the scan. -/
theorem colorScan_eq_fullScan (cl : List Int) (hcl : InRange cl) :
    ∀ (pal : Palette), WfPalette pal → ∀ (i m : Nat) (v : Int),
      colorScan cl pal i m v = fullScan cl pal i m v
  | [], _, _, _, _ => rfl
  | e :: rest, hwf, i, m, v => by
    simp only [colorScan, fullScan, tmpvalOf_eq cl e hcl hwf.head]
    by_cases hlt : sqDist cl e < v
    · rw [if_pos hlt, if_pos hlt]
      by_cases hz : sqDist cl e = 0
      · rw [if_pos hz, hz]
        exact (fullScan_of_le cl hcl rest hwf.tail (i + 1) i 0
          (fun x _ => sqDist_nonneg cl x)).symm
      · rw [if_neg hz]
        exact colorScan_eq_fullScan cl hcl rest hwf.tail (i + 1) i _
    · rw [if_neg hlt, if_neg hlt]
      exact colorScan_eq_fullScan cl hcl rest hwf.tail (i + 1) m v

theorem IsFirstMin.zero (cl : List Int) (e : Entry) (rest : Palette)
    (h : ∀ x ∈ rest, sqDist cl e ≤ sqDist cl x) : IsFirstMin cl (e :: rest) 0 := by
  refine ⟨by simp, ?_, fun j hj => absurd hj (Nat.not_lt_zero j)⟩
  intro j hj
  cases j with
  | zero => exact le_refl _
  | succ j =>
    simp only [List.getD_cons_zero, List.getD_cons_succ]
    exact h _ (getD_mem rest j (by simpa using hj))

theorem IsFirstMin.succ (cl : List Int) (e : Entry) (rest : Palette) (k : Nat)
    (hk : IsFirstMin cl rest k) (hlt : sqDist cl (rest.getD k []) < sqDist cl e) :
    IsFirstMin cl (e :: rest) (k + 1) := by
  obtain ⟨h1, h2, h3⟩ := hk
  refine ⟨by simpa using h1, ?_, ?_⟩
  · intro j hj
    cases j with
    | zero => simpa using le_of_lt hlt
    | succ j =>
      simp only [List.getD_cons_succ]
      exact h2 j (by simpa using hj)
  · intro j hj
    cases j with
    | zero => simpa using hlt
    | succ j =>
      simp only [List.getD_cons_succ]
      exact h3 j (by omega)

/-- When some entry improves on `minval`, the scan ends on the lowest-index
minimiser of the squared distance. -/
theorem colorScan_spec (cl : List Int) (hcl : InRange cl) :
    ∀ (pal : Palette), WfPalette pal → ∀ (i m : Nat) (v : Int),
      (∃ e ∈ pal, sqDist cl e < v) →
      ∃ k, colorScan cl pal i m v = some (i + k) ∧ IsFirstMin cl pal k ∧
        sqDist cl (pal.getD k []) < v
  | [], _, _, _, _, h => by
    obtain ⟨e, he, _⟩ := h
    exact absurd he (List.not_mem_nil e)
  | e :: rest, hwf, i, m, v, h => by
    simp only [colorScan, tmpvalOf_eq cl e hcl hwf.head]
    by_cases hlt : sqDist cl e < v
    · rw [if_pos hlt]
      by_cases hz : sqDist cl e = 0
      · rw [if_pos hz]
        refine ⟨0, rfl, IsFirstMin.zero cl e rest ?_, by simpa using hlt⟩
        intro x _
        rw [hz]
        exact sqDist_nonneg cl x
      · rw [if_neg hz]
        by_cases hex : ∃ x ∈ rest, sqDist cl x < sqDist cl e
        · obtain ⟨k, hk, hmin, hlt2⟩ :=
            colorScan_spec cl hcl rest hwf.tail (i + 1) i (sqDist cl e) hex
          refine ⟨k + 1, ?_, IsFirstMin.succ cl e rest k hmin hlt2, ?_⟩
          · rw [hk]; congr 1; omega
          · simp only [List.getD_cons_succ]
            exact lt_trans hlt2 hlt
        · have hall : ∀ x ∈ rest, sqDist cl e ≤ sqDist cl x := by
            intro x hx
            by_contra hc
            exact hex ⟨x, hx, not_le.mp hc⟩
          rw [colorScan_of_le cl hcl rest hwf.tail (i + 1) i _ hall]
          exact ⟨0, rfl, IsFirstMin.zero cl e rest hall, by simpa using hlt⟩
    · rw [if_neg hlt]
      have hex : ∃ x ∈ rest, sqDist cl x < v := by
        obtain ⟨x, hx, hxv⟩ := h
        rcases List.mem_cons.mp hx with rfl | hx
        · exact absurd hxv hlt
        · exact ⟨x, hx, hxv⟩
      obtain ⟨k, hk, hmin, hlt2⟩ := colorScan_spec cl hcl rest hwf.tail (i + 1) m v hex
      refine ⟨k + 1, ?_, IsFirstMin.succ cl e rest k hmin ?_, ?_⟩
      · rw [hk]; congr 1; omega
      · exact lt_of_lt_of_le hlt2 (not_lt.mp hlt)
      · simpa using hlt2

theorem ColorNumber_of_lt (pal : Palette) (hlen : pal.length ≤ 256) (k : Nat)
    (hk : k < pal.length) : ColorNumber k = k := by
  unfold ColorNumber; omega

theorem abs_lt_of_sq_lt (y : Int) (h : y ^ 2 < 1000000) : -1000 < y ∧ y < 1000 := by
  constructor <;> nlinarith

/-- A triple with a byte entry within squared distance 1000000 is in range. -/
theorem inRange_of_near (cl : List Int) (e : Entry) (hcl : 3 ≤ cl.length)
    (he : e.length = 3 ∧ ∀ x ∈ e, x < 256) (h : sqDist cl e < 1000000) : InRange cl := by
  obtain ⟨hel, hb⟩ := he
  match cl, hcl, h with
  | a :: b :: c :: tl, _, h =>
    match e, hel, hb, h with
    | [p, q, r], _, hb, h =>
      simp only [sqDist, List.getD_cons_zero, List.getD_cons_succ] at h
      have hp := hb p (by simp)
      have hq := hb q (by simp)
      have hr := hb r (by simp)
      have h0 := abs_lt_of_sq_lt (a - (p : Int))
        (by nlinarith [sq_nonneg (b - (q : Int)), sq_nonneg (c - (r : Int))])
      have h1 := abs_lt_of_sq_lt (b - (q : Int))
        (by nlinarith [sq_nonneg (a - (p : Int)), sq_nonneg (c - (r : Int))])
      have h2 := abs_lt_of_sq_lt (c - (r : Int))
        (by nlinarith [sq_nonneg (a - (p : Int)), sq_nonneg (b - (q : Int))])
      refine ⟨by simp, ?_⟩
      intro j hj
      match j, hj with
      | 0, _ => simp only [List.getD_cons_zero]; omega
      | 1, _ => simp only [List.getD_cons_zero, List.getD_cons_succ]; omega
      | 2, _ => simp only [List.getD_cons_zero, List.getD_cons_succ]; omega

/-- The squared distance vanishes exactly on an exact match. -/
theorem sqDist_eq_zero_iff (cl : List Int) (e : Entry) (hcl : cl.length = 3)
    (hel : e.length = 3) : sqDist cl e = 0 ↔ toInts e = cl := by
  match cl, hcl with
  | [a, b, c], _ =>
    match e, hel with
    | [p, q, r], _ =>
      simp only [sqDist, List.getD_cons_zero, List.getD_cons_succ, toInts, List.map_cons,
        List.map_nil, List.cons.injEq, and_true, Int.ofNat_eq_coe]
      constructor
      · intro h
        have h0 : (a - (p : Int)) ^ 2 = 0 := by
          nlinarith [sq_nonneg (a - (p : Int)), sq_nonneg (b - (q : Int)),
            sq_nonneg (c - (r : Int))]
        have h1 : (b - (q : Int)) ^ 2 = 0 := by
          nlinarith [sq_nonneg (a - (p : Int)), sq_nonneg (b - (q : Int)),
            sq_nonneg (c - (r : Int))]
        have h2 : (c - (r : Int)) ^ 2 = 0 := by
          nlinarith [sq_nonneg (a - (p : Int)), sq_nonneg (b - (q : Int)),
            sq_nonneg (c - (r : Int))]
        have e0 := pow_eq_zero_iff (two_ne_zero) |>.mp h0
        have e1 := pow_eq_zero_iff (two_ne_zero) |>.mp h1
        have e2 := pow_eq_zero_iff (two_ne_zero) |>.mp h2
        refine ⟨by omega, by omega, by omega⟩
      · rintro ⟨rfl, rfl, rfl⟩
        simp

theorem toInts_injective : Function.Injective toInts := by
  unfold toInts
  exact List.map_injective_iff.mpr (fun a b h => Int.ofNat.inj h)

theorem toInts_length (e : Entry) : (toInts e).length = e.length := by
  simp [toInts]

/-- The function `ColorIndex` ends on the lowest-index minimiser whenever some entry lies
within squared distance 1000000. -/
theorem colorIndex_firstMin (pal : Palette) (cl : List Int) (hwf : WfPalette pal)
    (hlen : pal.length ≤ 256) (hcl : 3 ≤ cl.length)
    (hnear : ∃ e ∈ pal, sqDist cl e < 1000000) :
    ∃ k, ColorIndex pal cl = some k ∧ IsFirstMin cl pal k ∧
      sqDist cl (pal.getD k []) < 1000000 := by
  obtain ⟨e, he, hd⟩ := hnear
  have hr : InRange cl := inRange_of_near cl e hcl (hwf e he) hd
  obtain ⟨k, hk, hmin, hlt⟩ := colorScan_spec cl hr pal hwf 0 0 1000000 ⟨e, he, hd⟩
  refine ⟨k, ?_, hmin, hlt⟩
  unfold ColorIndex
  rw [hk, Option.map_some', Nat.zero_add, ColorNumber_of_lt pal hlen k hmin.1]

/-- On an exact match `ColorIndex` returns the lowest index holding that colour. -/
theorem colorIndex_exact (pal : Palette) (cl : List Int) (hwf : WfPalette pal)
    (hlen : pal.length ≤ 256) (hex : ∃ e ∈ pal, toInts e = cl) :
    ∃ k, ColorIndex pal cl = some k ∧ k < pal.length ∧ toInts (pal.getD k []) = cl ∧
      ∀ j, j < k → toInts (pal.getD j []) ≠ cl := by
  obtain ⟨e, he, hec⟩ := hex
  have hl3 : cl.length = 3 := by rw [← hec, toInts_length]; exact (hwf e he).1
  have hz : sqDist cl e = 0 := (sqDist_eq_zero_iff cl e hl3 (hwf e he).1).mpr hec
  obtain ⟨k, hk, ⟨hkl, hmin, hfirst⟩, _⟩ :=
    colorIndex_firstMin pal cl hwf hlen (by omega) ⟨e, he, by rw [hz]; decide⟩
  have hkm := getD_mem pal k hkl
  obtain ⟨i, hi, hie⟩ := List.getElem_of_mem he
  have hle := hmin i hi
  rw [List.getD_eq_getElem pal [] hi, hie, hz] at hle
  have hkz : sqDist cl (pal.getD k []) = 0 := le_antisymm hle (sqDist_nonneg _ _)
  refine ⟨k, hk, hkl, (sqDist_eq_zero_iff cl _ hl3 (hwf _ hkm).1).mp hkz, ?_⟩
  intro j hj hcontra
  have hjl : j < pal.length := lt_trans hj hkl
  have hjz := (sqDist_eq_zero_iff cl _ hl3 (hwf _ (getD_mem pal j hjl)).1).mpr hcontra
  have := hfirst j hj
  rw [hkz, hjz] at this
  exact absurd this (lt_irrefl _)

/-! ### Lemmas on the loop of `Open` -/

theorem runLines_append {D : Type} (env : Env D) :
    ∀ (a b : List String) (s : State D),
      runLines env s (a ++ b) =
        match runLines env s a with
        | Step.next s' => runLines env s' b
        | Step.ret r => Step.ret r
  | [], _, _ => rfl
  | l :: a, b, s => by
    simp only [List.cons_append, runLines]
    cases stepLine env s l with
    | next s' => exact runLines_append env a b s'
    | ret r => rfl

theorem stepLine_line {D : Type} (env : Env D) (s s' : State D) (l : String)
    (h : stepLine env s l = Step.next s') : s'.line = s.line + 1 := by
  unfold stepLine at h
  simp only at h
  split_ifs at h
  all_goals first
    | (injection h with h; rw [← h])
    | (split at h
       · injection h with h; rw [← h]
       · exact absurd h (by simp))

theorem runLines_line {D : Type} (env : Env D) :
    ∀ (ls : List String) (s s' : State D),
      runLines env s ls = Step.next s' → s'.line = s.line + ls.length
  | [], s, s', h => by
    simp only [runLines] at h
    injection h with h
    rw [h]; rfl
  | l :: ls, s, s', h => by
    simp only [runLines] at h
    cases hs : stepLine env s l with
    | next s1 =>
      rw [hs] at h
      have h1 := stepLine_line env s s1 l hs
      have h2 := runLines_line env ls s1 s' h
      rw [h2, h1, List.length_cons]; omega
    | ret r => rw [hs] at h; exact absurd h (by simp)

theorem linesOf_length : ∀ (ts : List Tag), (linesOf ts).length = 2 * ts.length
  | [] => rfl
  | (_, _) :: ts => by
    simp only [linesOf, List.length_cons, linesOf_length ts]; omega

theorem reach_line {D : Type} (env : Env D) (pre : List Tag) (s : State D)
    (h : runLines env (initState env) (linesOf pre) = Step.next s) :
    s.line = 2 * pre.length := by
  rw [runLines_line env _ _ _ h, linesOf_length]
  simp [initState]

/-! ### The loop of `Open`, tag by tag

From a state with an even `line`, the next two lines are one tag: a code line
and its value line. -/

theorem runLines_tag {D : Type} (env : Env D) (s : State D) (c v : String)
    (ls : List String) (hev : s.line % 2 = 0) :
    runLines env s (c :: v :: ls) =
      match stepLine env { s with line := s.line + 1, code := env.TrimSpace c } v with
      | Step.next s' => runLines env s' ls
      | Step.ret r => Step.ret r := by
  have h1 : (s.line + 1) % 2 = 1 := by omega
  simp only [runLines, stepLine, h1, if_true]

theorem tag_header_bad_code {D : Type} (env : Env D) (s : State D) (c v : String)
    (ls : List String) (hev : s.line % 2 = 0) (hset : s.setreader = true)
    (hc : env.TrimSpace c ≠ "2") :
    runLines env s (c :: v :: ls) =
      Step.ret ⟨Outcome.error (invalidGroupCode (s.line + 2) (env.TrimSpace c)),
        some s.d, s.calls⟩ := by
  have h2 : ¬ (s.line + 1 + 1) % 2 = 1 := by omega
  rw [runLines_tag env s c v ls hev]
  simp only [stepLine, h2, if_false, hset, if_true, ne_eq, hc, not_false_eq_true]

theorem tag_header_unknown {D : Type} (env : Env D) (s : State D) (c v : String)
    (ls : List String) (hev : s.line % 2 = 0) (hset : s.setreader = true)
    (hc : env.TrimSpace c = "2") (hn : env.SectionTypeValue (env.ToUpper v) < 0) :
    runLines env s (c :: v :: ls) =
      Step.ret ⟨Outcome.error (unknownSectionName (s.line + 2) v), some s.d, s.calls⟩ := by
  have h2 : ¬ (s.line + 1 + 1) % 2 = 1 := by omega
  rw [runLines_tag env s c v ls hev]
  simp only [stepLine, h2, if_false, hset, if_true, ne_eq, hc, not_true_eq_false, hn]

theorem tag_header_ok {D : Type} (env : Env D) (s : State D) (c v : String)
    (ls : List String) (hev : s.line % 2 = 0) (hset : s.setreader = true)
    (hc : env.TrimSpace c = "2") (hn : 0 ≤ env.SectionTypeValue (env.ToUpper v)) :
    runLines env s (c :: v :: ls) =
      runLines env { s with line := s.line + 2, code := env.TrimSpace c,
                            reader := some (env.SectionTypeValue (env.ToUpper v)),
                            startline := s.line + 3, setreader := false } ls := by
  have h2 : ¬ (s.line + 1 + 1) % 2 = 1 := by omega
  rw [runLines_tag env s c v ls hev]
  simp only [stepLine, h2, if_false, hset, if_true, ne_eq, hc, not_true_eq_false,
    not_lt.mpr hn]

theorem tag_eof {D : Type} (env : Env D) (s : State D) (c v : String)
    (ls : List String) (hev : s.line % 2 = 0) (hset : s.setreader = false)
    (hc : env.TrimSpace c = "0") (hv : env.ToUpper v = "EOF") :
    runLines env s (c :: v :: ls) = Step.ret ⟨Outcome.ok, some s.d, s.calls⟩ := by
  have h2 : ¬ (s.line + 1 + 1) % 2 = 1 := by omega
  rw [runLines_tag env s c v ls hev]
  simp only [stepLine, h2, if_false, hset, hc, hv, if_true, Bool.false_eq_true]

theorem tag_section {D : Type} (env : Env D) (s : State D) (c v : String)
    (ls : List String) (hev : s.line % 2 = 0) (hset : s.setreader = false)
    (hc : env.TrimSpace c = "0") (hv : env.ToUpper v = "SECTION") :
    runLines env s (c :: v :: ls) =
      runLines env { s with line := s.line + 2, code := env.TrimSpace c,
                            setreader := true } ls := by
  have h2 : ¬ (s.line + 1 + 1) % 2 = 1 := by omega
  have hne : ¬ ("SECTION" = "EOF") := by decide
  rw [runLines_tag env s c v ls hev]
  simp only [stepLine, h2, if_false, hset, hc, hv, if_true, Bool.false_eq_true, hne]

theorem tag_endsec {D : Type} (env : Env D) (s : State D) (c v : String)
    (ls : List String) (hev : s.line % 2 = 0) (hset : s.setreader = false)
    (hc : env.TrimSpace c = "0") (hv : env.ToUpper v = "ENDSEC") :
    runLines env s (c :: v :: ls) =
      match invoke env s with
      | (Outcome.ok, d) =>
        runLines env { s with line := s.line + 2, code := env.TrimSpace c, d := d, data := [],
                              startline := s.line + 3, calls := s.calls ++ [callOf s] } ls
      | (o, d) => Step.ret ⟨o, some d, s.calls ++ [callOf s]⟩ := by
  have h2 : ¬ (s.line + 1 + 1) % 2 = 1 := by omega
  have hne : ¬ ("ENDSEC" = "EOF") := by decide
  have hne2 : ¬ ("ENDSEC" = "SECTION") := by decide
  rw [runLines_tag env s c v ls hev]
  simp only [stepLine, h2, if_false, hset, hc, hv, if_true, Bool.false_eq_true, hne, hne2]
  have hinv : invoke env { s with line := s.line + 1, code := "0", setreader := false } =
      invoke env s := rfl
  have hcall : callOf { s with line := s.line + 1, code := "0", setreader := false } =
      callOf s := rfl
  rw [hinv, hcall]
  rcases invoke env s with ⟨o, d⟩
  cases o <;> rfl

theorem tag_plain {D : Type} (env : Env D) (s : State D) (c v : String)
    (ls : List String) (hev : s.line % 2 = 0) (hset : s.setreader = false)
    (hp : ¬ (env.TrimSpace c = "0" ∧ (env.ToUpper v = "EOF" ∨ env.ToUpper v = "SECTION" ∨
      env.ToUpper v = "ENDSEC"))) :
    runLines env s (c :: v :: ls) =
      runLines env { s with line := s.line + 2, code := env.TrimSpace c,
                            data := s.data ++ [(env.TrimSpace c, v)] } ls := by
  have h2 : ¬ (s.line + 1 + 1) % 2 = 1 := by omega
  rw [runLines_tag env s c v ls hev]
  by_cases hc : env.TrimSpace c = "0"
  · have h3 : ¬ env.ToUpper v = "EOF" := fun h => hp ⟨hc, Or.inl h⟩
    have h4 : ¬ env.ToUpper v = "SECTION" := fun h => hp ⟨hc, Or.inr (Or.inl h)⟩
    have h5 : ¬ env.ToUpper v = "ENDSEC" := fun h => hp ⟨hc, Or.inr (Or.inr h)⟩
    simp only [stepLine, h2, if_false, hset, hc, if_true, Bool.false_eq_true, h3, h4, h5]
  · simp only [stepLine, h2, if_false, hset, hc, Bool.false_eq_true]

theorem runLines_body {D : Type} (env : Env D) :
    ∀ (body : List Tag) (s : State D) (ls : List String),
      s.line % 2 = 0 → s.setreader = false → (∀ t ∈ body, IsPlain env t) →
      ∃ code', runLines env s (linesOf body ++ ls) =
        runLines env { s with line := s.line + 2 * body.length, code := code',
                              data := s.data ++ body.map (buffered env) } ls
  | [], s, ls, _, _, _ => by
    refine ⟨s.code, ?_⟩
    cases s
    simp [linesOf]
  | (c, v) :: body, s, ls, hev, hset, hp => by
    have h0 : IsPlain env (c, v) := hp _ (List.mem_cons_self _ _)
    simp only [linesOf, List.cons_append]
    rw [tag_plain env s c v _ hev hset h0]
    obtain ⟨code', h⟩ := runLines_body env body
      { s with line := s.line + 2, code := env.TrimSpace c,
               data := s.data ++ [(env.TrimSpace c, v)] } ls
      (by simp only; omega) hset (fun t ht => hp t (List.mem_cons_of_mem _ ht))
    refine ⟨code', ?_⟩
    rw [h]
    simp only [List.length_cons, List.map_cons, buffered, List.append_assoc,
      List.singleton_append]
    congr 2
    omega

/-- No parser is called, and the drawing is untouched, as long as no
`0/ENDSEC` tag is met. -/
theorem calls_of_no_endsec {D : Type} (env : Env D) :
    ∀ (pre : List Tag) (s s' : State D),
      s.line % 2 = 0 → runLines env s (linesOf pre) = Step.next s' →
      (∀ t ∈ pre, ¬ (env.TrimSpace t.1 = "0" ∧ env.ToUpper t.2 = "ENDSEC")) →
      s'.calls = s.calls ∧ s'.d = s.d
  | [], s, s', _, h, _ => by
    simp only [linesOf, runLines] at h
    injection h with h
    rw [h]
    exact ⟨rfl, rfl⟩
  | (c, v) :: pre, s, s', hev, h, hn => by
    have hn0 := hn _ (List.mem_cons_self _ _)
    have hn' : ∀ t ∈ pre, ¬ (env.TrimSpace t.1 = "0" ∧ env.ToUpper t.2 = "ENDSEC") :=
      fun t ht => hn t (List.mem_cons_of_mem _ ht)
    simp only [linesOf] at h
    cases hset : s.setreader with
    | true =>
      by_cases hc : env.TrimSpace c = "2"
      · by_cases hv : env.SectionTypeValue (env.ToUpper v) < 0
        · rw [tag_header_unknown env s c v _ hev hset hc hv] at h
          exact absurd h (by simp)
        · rw [tag_header_ok env s c v _ hev hset hc (not_lt.mp hv)] at h
          have ih := calls_of_no_endsec env pre _ s' (by simp only; omega) h hn'
          exact ih
      · rw [tag_header_bad_code env s c v _ hev hset hc] at h
        exact absurd h (by simp)
    | false =>
      by_cases hp : IsPlain env (c, v)
      · rw [tag_plain env s c v _ hev hset hp] at h
        have ih := calls_of_no_endsec env pre _ s' (by simp only; omega) h hn'
        exact ih
      · unfold IsPlain at hp
        simp only [not_not] at hp
        obtain ⟨hc, hv | hv | hv⟩ := hp
        · rw [tag_eof env s c v _ hev hset hc hv] at h
          exact absurd h (by simp)
        · rw [tag_section env s c v _ hev hset hc hv] at h
          have ih := calls_of_no_endsec env pre _ s' (by simp only; omega) h hn'
          exact ih
        · exact absurd ⟨hc, hv⟩ hn0

/-- A run of well-formed sections whose parser calls all succeed: the calls
made are the expected ones, and the loop goes on after the last `0/ENDSEC`. -/
theorem runLines_sections {D : Type} (env : Env D) :
    ∀ (secs : List Sec) (s : State D) (ls : List String),
      s.line % 2 = 0 → s.setreader = false → s.data = [] →
      (∀ x ∈ secs, WfSec env x) →
      allSucceed env s.d (expectedCalls env s.line secs) = true →
      ∃ s', runLines env s (streamLines secs ++ ls) = runLines env s' ls ∧
        s'.line % 2 = 0 ∧ s'.setreader = false ∧
        s'.calls = s.calls ++ expectedCalls env s.line secs
  | [], s, ls, hev, hset, _, _, _ => ⟨s, rfl, hev, hset, by simp [expectedCalls]⟩
  | x :: xs, s, ls, hev, hset, hdata, hwf, hok => by
    obtain ⟨h1, h2, h3, h4, h5, h6, h7⟩ := hwf x (List.mem_cons_self _ _)
    simp only [streamLines, Sec.lines, List.cons_append, List.append_assoc, List.nil_append]
    rw [tag_section env s _ _ _ hev hset h1 h2]
    rw [tag_header_ok env _ _ _ _ (by simp only; omega) rfl h3 h4]
    simp only
    obtain ⟨code', hb⟩ := runLines_body env x.body
      { s with line := s.line + 2 + 2, code := env.TrimSpace x.name.1,
               reader := some (env.SectionTypeValue (env.ToUpper x.name.2)),
               startline := s.line + 2 + 3, setreader := false }
      (x.stop.1 :: x.stop.2 :: (streamLines xs ++ ls)) (by simp only; omega) rfl h5
    simp only at hb
    rw [hb]
    rw [tag_endsec env _ _ _ _ (by simp only; omega) rfl h6 h7]
    simp only [expectedCalls, allSucceed] at hok
    simp only [invoke, callOf, hdata, List.nil_append]
    have e5 : s.line + 2 + 3 = s.line + 5 := by omega
    rw [e5]
    cases hr : env.Read (env.SectionTypeValue (env.ToUpper x.name.2)) (s.line + 5)
        (x.body.map (buffered env)) s.d with
    | mk err d' =>
      rw [hr] at hok
      cases err with
      | some e => simp at hok
      | none =>
        simp only at hok ⊢
        obtain ⟨s', hrun, hl, hs, hc⟩ := runLines_sections env xs
          { s with line := s.line + 2 + 2 + 2 * x.body.length + 2,
                   code := env.TrimSpace x.stop.1, d := d', data := [],
                   reader := some (env.SectionTypeValue (env.ToUpper x.name.2)),
                   startline := s.line + 2 + 2 + 2 * x.body.length + 3,
                   setreader := false,
                   calls := s.calls ++ [⟨some (env.SectionTypeValue (env.ToUpper x.name.2)),
                     s.line + 5, x.body.map (buffered env)⟩] }
          ls (by simp only; omega) rfl rfl (fun y hy => hwf y (List.mem_cons_of_mem _ hy))
          (by
            simp only
            have e6 : s.line + 2 + 2 + 2 * x.body.length + 2 =
                s.line + (2 * x.body.length + 6) := by omega
            rw [e6]
            exact hok)
        refine ⟨s', hrun, hl, hs, ?_⟩
        rw [hc]
        simp only [expectedCalls, List.append_assoc, List.singleton_append]
        have e6 : s.line + 2 + 2 + 2 * x.body.length + 2 =
            s.line + (2 * x.body.length + 6) := by omega
        rw [e6]

/-- A `0/SECTION` tag, a resolved header and plain tags, met outside a header:
the header's slot becomes the reader, the start line is the line after the
header, and the plain tags are appended to the buffer as it was. -/
theorem runLines_header_body {D : Type} (env : Env D) (s : State D)
    (c0 v0 c1 v1 : String) (body : List Tag) (ls : List String)
    (hev : s.line % 2 = 0) (hidle : s.setreader = false)
    (hc0 : env.TrimSpace c0 = "0") (hv0 : env.ToUpper v0 = "SECTION")
    (hc1 : env.TrimSpace c1 = "2") (hname : 0 ≤ env.SectionTypeValue (env.ToUpper v1))
    (hbody : ∀ t ∈ body, IsPlain env t) :
    ∃ code', runLines env s (c0 :: v0 :: c1 :: v1 :: (linesOf body ++ ls)) =
      runLines env { s with line := s.line + 4 + 2 * body.length, code := code',
                            reader := some (env.SectionTypeValue (env.ToUpper v1)),
                            startline := s.line + 5, setreader := false,
                            data := s.data ++ body.map (buffered env) } ls := by
  rw [tag_section env s c0 v0 _ hev hidle hc0 hv0,
    tag_header_ok env _ c1 v1 _ (by simp only; omega) rfl hc1 hname]
  simp only
  obtain ⟨code', hb⟩ := runLines_body env body
    { s with line := s.line + 2 + 2, code := env.TrimSpace c1,
             reader := some (env.SectionTypeValue (env.ToUpper v1)),
             startline := s.line + 2 + 3, setreader := false }
    ls (by simp only; omega) rfl hbody
  simp only at hb
  exact ⟨code', hb⟩

/-- Only a successful call at `0/ENDSEC` empties the buffer: every other pass
through the loop body keeps it or appends to it. -/
theorem stepLine_data {D : Type} (env : Env D) (t t' : State D) (l : String)
    (h : stepLine env t l = Step.next t') :
    t.data <+: t'.data ∨ (t'.data = [] ∧ t'.calls = t.calls ++ [callOf t]) := by
  unfold stepLine at h
  simp only at h
  split_ifs at h
  all_goals first
    | (injection h with h; rw [← h]; left; exact List.prefix_refl _)
    | (injection h with h; rw [← h]; left; exact List.prefix_append _ _)
    | (split at h
       · injection h with h; rw [← h]; right; exact ⟨rfl, rfl⟩
       · exact absurd h (by simp))

theorem sqDist_le_of_bytes (cl : List Int) (e : Entry) (hcl : cl.length = 3)
    (hb : ∀ x ∈ cl, 0 ≤ x ∧ x ≤ 255) (he : e.length = 3 ∧ ∀ x ∈ e, x < 256) :
    sqDist cl e ≤ 195075 := by
  obtain ⟨hel, hx⟩ := he
  match cl, hcl, hb with
  | [a, b, c], _, hb =>
    match e, hel, hx with
    | [p, q, r], _, hx =>
      have ha := hb a (by simp)
      have hb' := hb b (by simp)
      have hc := hb c (by simp)
      have hp := hx p (by simp)
      have hq := hx q (by simp)
      have hr := hx r (by simp)
      simp only [sqDist, List.getD_cons_zero, List.getD_cons_succ]
      have h0 : (a - (p : Int)) ^ 2 ≤ 65025 := by nlinarith
      have h1 : (b - (q : Int)) ^ 2 ≤ 65025 := by nlinarith
      have h2 : (c - (r : Int)) ^ 2 ≤ 65025 := by nlinarith
      omega

/-! ### The nil reader -/

theorem stepLine_nilDeref {D : Type} (env : Env D) (s : State D) (l : String) (r : Result D)
    (h : stepLine env s l = Step.ret r) (hn : r.outcome = Outcome.nilDeref) :
    s.line % 2 = 1 ∧ s.setreader = false ∧ s.code = "0" ∧ env.ToUpper l = "ENDSEC" ∧
      s.reader = none := by
  unfold stepLine at h
  simp only at h
  split_ifs at h with h1 h2 h3 h4 h5 h6 h7 h8
  · injection h with h; rw [← h] at hn; exact absurd hn (by simp)
  · injection h with h; rw [← h] at hn; exact absurd hn (by simp)
  · injection h with h; rw [← h] at hn; exact absurd hn (by simp)
  · have hrd : s.reader = none := by
      cases hr : s.reader with
      | none => rfl
      | some i =>
        simp only [invoke, hr] at h
        rcases hread : env.Read i s.startline s.data s.d with ⟨_ | e, d'⟩
        · rw [hread] at h; exact absurd h (by simp)
        · rw [hread] at h
          simp only at h
          injection h with h
          rw [← h] at hn
          exact absurd hn (by simp)
    refine ⟨by omega, by simpa using h2, h5, h8, hrd⟩

theorem stepLine_at_endsec_nil {D : Type} (env : Env D) (s : State D) (l : String)
    (h1 : s.line % 2 = 1) (h2 : s.setreader = false) (h3 : s.code = "0")
    (h4 : env.ToUpper l = "ENDSEC") (h5 : s.reader = none) :
    stepLine env s l = Step.ret ⟨Outcome.nilDeref, some s.d, s.calls ++ [callOf s]⟩ := by
  have hp : ¬ (s.line + 1) % 2 = 1 := by omega
  have hne : ¬ ("ENDSEC" = "EOF") := by decide
  have hne2 : ¬ ("ENDSEC" = "SECTION") := by decide
  simp only [stepLine, hp, if_false, h2, h3, h4, if_true, Bool.false_eq_true, hne, hne2,
    invoke, h5]

theorem runLines_nilDeref {D : Type} (env : Env D) :
    ∀ (lines : List String) (s0 : State D) (r : Result D),
      runLines env s0 lines = Step.ret r → r.outcome = Outcome.nilDeref →
      ∃ (a : List String) (v : String) (rest : List String) (s : State D),
        lines = a ++ v :: rest ∧ runLines env s0 a = Step.next s ∧
        s.line % 2 = 1 ∧ s.setreader = false ∧ s.code = "0" ∧ env.ToUpper v = "ENDSEC" ∧
        s.reader = none
  | [], _, _, h, _ => by simp [runLines] at h
  | l :: ls, s0, r, h, hn => by
    simp only [runLines] at h
    cases hs : stepLine env s0 l with
    | next s1 =>
      rw [hs] at h
      obtain ⟨a, v, rest, s, h1, h2, h3⟩ := runLines_nilDeref env ls s1 r h hn
      refine ⟨l :: a, v, rest, s, by rw [h1]; rfl, ?_, h3⟩
      simp only [runLines, hs]
      exact h2
    | ret r' =>
      rw [hs] at h
      injection h with h
      rw [h] at hs
      exact ⟨[], l, ls, s0, rfl, rfl, stepLine_nilDeref env s0 l r hs hn⟩

theorem finish_nilDeref {D : Type} (env : Env D) (scanErr : Option String) (s : State D) :
    (finish env scanErr s).outcome = Outcome.nilDeref ↔
      scanErr = none ∧ s.data ≠ [] ∧ s.reader = none := by
  unfold finish
  cases scanErr with
  | some e => simp
  | none =>
    simp only [true_and]
    by_cases hd : s.data.length > 0
    · have hne : s.data ≠ [] := List.length_pos.mp hd
      simp only [hd, if_true, hne, ne_eq, not_false_eq_true, true_and]
      cases hr : s.reader with
      | none => simp [invoke, hr]
      | some i =>
        simp only [invoke, hr]
        rcases env.Read i s.startline s.data s.d with ⟨_ | e, d'⟩ <;> simp
    · have he : s.data = [] := by
        cases hdd : s.data with
        | nil => rfl
        | cons x xs => rw [hdd] at hd; simp at hd
      simp [hd, he]

/-- Once a header has set `reader`, every call has a section. -/
theorem stepLine_reader {D : Type} (env : Env D) (s : State D) (l : String)
    (hr : s.reader ≠ none) (hc : ∀ c ∈ s.calls, c.slot ≠ none) :
    match stepLine env s l with
    | Step.next s' => s'.reader ≠ none ∧ ∀ c ∈ s'.calls, c.slot ≠ none
    | Step.ret r => r.outcome ≠ Outcome.nilDeref ∧ ∀ c ∈ r.calls, c.slot ≠ none := by
  obtain ⟨i, hi⟩ := Option.ne_none_iff_exists'.mp hr
  have hcall : ∀ c ∈ s.calls ++ [callOf s], c.slot ≠ none := by
    intro c hcm
    rcases List.mem_append.mp hcm with h | h
    · exact hc c h
    · rw [List.mem_singleton.mp h]
      simp [callOf, hi]
  unfold stepLine
  simp only
  split_ifs
  · exact ⟨hr, hc⟩
  · exact ⟨by simp, hc⟩
  · exact ⟨by simp, hc⟩
  · exact ⟨by simp, hc⟩
  · exact ⟨by simp, hc⟩
  · exact ⟨hr, hc⟩
  · simp only [invoke, hi]
    rcases env.Read i s.startline s.data s.d with ⟨_ | e, d'⟩
    · exact ⟨by simp, hcall⟩
    · exact ⟨by simp, hcall⟩
  · exact ⟨hr, hc⟩
  · exact ⟨hr, hc⟩

theorem runLines_reader {D : Type} (env : Env D) :
    ∀ (lines : List String) (s : State D) (scanErr : Option String),
      s.reader ≠ none → (∀ c ∈ s.calls, c.slot ≠ none) →
      ∀ r, (match runLines env s lines with
            | Step.ret r => r
            | Step.next s' => finish env scanErr s') = r →
        r.outcome ≠ Outcome.nilDeref ∧ ∀ c ∈ r.calls, c.slot ≠ none
  | [], s, scanErr, hr, hc, r, h => by
    simp only [runLines] at h
    rw [← h]
    obtain ⟨i, hi⟩ := Option.ne_none_iff_exists'.mp hr
    unfold finish
    cases scanErr with
    | some e => exact ⟨by simp, hc⟩
    | none =>
      simp only
      split_ifs
      · simp only [invoke, hi]
        have hcall : ∀ c ∈ s.calls ++ [callOf s], c.slot ≠ none := by
          intro c hcm
          rcases List.mem_append.mp hcm with h | h
          · exact hc c h
          · rw [List.mem_singleton.mp h]
            simp [callOf, hi]
        rcases env.Read i s.startline s.data s.d with ⟨_ | e, d'⟩
        · exact ⟨by simp, hcall⟩
        · exact ⟨by simp, hcall⟩
      · exact ⟨by simp, hc⟩
  | l :: ls, s, scanErr, hr, hc, r, h => by
    have hstep := stepLine_reader env s l hr hc
    simp only [runLines] at h
    cases hs : stepLine env s l with
    | next s1 =>
      rw [hs] at h hstep
      exact runLines_reader env ls s1 scanErr hstep.1 hstep.2 r h
    | ret r' =>
      rw [hs] at h hstep
      simp only at h
      rw [← h]
      exact hstep

/-- The variable `reader` changes only when a section header resolves. -/
theorem stepLine_reader_set {D : Type} (env : Env D) (t t' : State D) (l : String)
    (h : stepLine env t l = Step.next t') :
    t'.reader = t.reader ∨
      (t.setreader = true ∧ t.code = "2" ∧ 0 ≤ env.SectionTypeValue (env.ToUpper l) ∧
        t'.reader = some (env.SectionTypeValue (env.ToUpper l))) := by
  unfold stepLine at h
  simp only at h
  split_ifs at h with h1 h2 h3 h4
  · injection h with h; rw [← h]; left; rfl
  · injection h with h; rw [← h]; right
    exact ⟨h2, by simpa using h3, not_lt.mp h4, rfl⟩
  · injection h with h; rw [← h]; left; rfl
  · split at h
    · injection h with h; rw [← h]; left; rfl
    · exact absurd h (by simp)
  · injection h with h; rw [← h]; left; rfl
  · injection h with h; rw [← h]; left; rfl

/-! ### Letter case -/

theorem sameRun_refl {D : Type} (r : Result D) : sameRun r r :=
  ⟨rfl, rfl, Or.inl rfl⟩

/-- Case variants drive the loop through the same states. -/
theorem runLines_caseVariant {D : Type} (env : Env D) :
    ∀ (ts ts' : List Tag) (s : State D), s.line % 2 = 0 →
      caseVariant env s.setreader ts ts' →
      (∃ s', runLines env s (linesOf ts) = Step.next s' ∧
          runLines env s (linesOf ts') = Step.next s') ∨
      (∃ r r', runLines env s (linesOf ts) = Step.ret r ∧
          runLines env s (linesOf ts') = Step.ret r' ∧ sameRun r r')
  | [], [], s, _, _ => Or.inl ⟨s, rfl, rfl⟩
  | _ :: _, [], _, _, h => by simp [caseVariant] at h
  | [], _ :: _, _, _, h => by simp [caseVariant] at h
  | (c, v) :: ts, (c', v') :: ts', s, hev, h => by
    simp only [caseVariant] at h
    obtain ⟨hcc, hup, h⟩ := h
    subst hcc
    simp only [linesOf]
    cases hset : s.setreader with
    | true =>
      rw [hset] at h
      simp only [if_true] at h
      by_cases hc : env.TrimSpace c = "2"
      · by_cases hn : env.SectionTypeValue (env.ToUpper v) < 0
        · right
          refine ⟨_, _, tag_header_unknown env s c v _ hev hset hc hn,
            tag_header_unknown env s c v' _ hev hset hc (by rw [← hup]; exact hn), rfl, rfl,
            Or.inr ⟨_, _, rfl, rfl⟩⟩
        · rw [tag_header_ok env s c v _ hev hset hc (not_lt.mp hn),
            tag_header_ok env s c v' _ hev hset hc (by rw [← hup]; exact not_lt.mp hn),
            ← hup]
          exact runLines_caseVariant env ts ts' _ (by simp only; omega) h
      · right
        exact ⟨_, _, tag_header_bad_code env s c v _ hev hset hc,
          tag_header_bad_code env s c v' _ hev hset hc, sameRun_refl _⟩
    | false =>
      rw [hset] at h
      simp only [Bool.false_eq_true, if_false] at h
      by_cases hsec : env.TrimSpace c = "0" ∧ env.ToUpper v = "SECTION"
      · rw [if_pos hsec] at h
        rw [tag_section env s c v _ hev hset hsec.1 hsec.2,
          tag_section env s c v' _ hev hset hsec.1 (by rw [← hup]; exact hsec.2)]
        exact runLines_caseVariant env ts ts' _ (by simp only; omega) h
      · rw [if_neg hsec] at h
        by_cases hend : env.TrimSpace c = "0" ∧
            (env.ToUpper v = "ENDSEC" ∨ env.ToUpper v = "EOF")
        · rw [if_pos hend] at h
          obtain ⟨hc, hv | hv⟩ := hend
          · rw [tag_endsec env s c v _ hev hset hc hv,
              tag_endsec env s c v' _ hev hset hc (by rw [← hup]; exact hv)]
            rcases hinv : invoke env s with ⟨o, d⟩
            cases o with
            | ok =>
              simp only
              refine runLines_caseVariant env ts ts' _ ?_ ?_
              · simp only; omega
              · show caseVariant env s.setreader ts ts'
                rw [hset]; exact h
            | error m => exact Or.inr ⟨_, _, rfl, rfl, sameRun_refl _⟩
            | nilDeref => exact Or.inr ⟨_, _, rfl, rfl, sameRun_refl _⟩
          · right
            exact ⟨_, _, tag_eof env s c v _ hev hset hc hv,
              tag_eof env s c v' _ hev hset hc (by rw [← hup]; exact hv), sameRun_refl _⟩
        · rw [if_neg hend] at h
          obtain ⟨hvv, h⟩ := h
          subst hvv
          have hp : IsPlain env (c, v) := by
            unfold IsPlain
            rintro ⟨hc, hv | hv | hv⟩
            · exact hend ⟨hc, Or.inr hv⟩
            · exact hsec ⟨hc, hv⟩
            · exact hend ⟨hc, Or.inl hv⟩
          rw [tag_plain env s c v (linesOf ts) hev hset hp,
            tag_plain env s c v (linesOf ts') hev hset hp]
          refine runLines_caseVariant env ts ts' _ ?_ ?_
          · simp only; omega
          · show caseVariant env s.setreader ts ts'
            rw [hset]; exact h

/-- The calls made are never taken back. -/
theorem stepLine_calls {D : Type} (env : Env D) (s : State D) (l : String) :
    match stepLine env s l with
    | Step.next s' => s.calls <+: s'.calls
    | Step.ret r => s.calls <+: r.calls := by
  unfold stepLine
  simp only
  split_ifs
  all_goals first
    | exact List.prefix_refl _
    | (rcases invoke env s with ⟨o, d⟩
       cases o <;> exact List.prefix_append _ _)

theorem runLines_calls {D : Type} (env : Env D) :
    ∀ (lines : List String) (s : State D) (scanErr : Option String),
      s.calls <+: (match runLines env s lines with
                   | Step.ret r => r
                   | Step.next s' => finish env scanErr s').calls
  | [], s, scanErr => by
    simp only [runLines, finish]
    cases scanErr with
    | some e => exact List.prefix_refl _
    | none =>
      simp only
      split_ifs
      · exact List.prefix_append _ _
      · exact List.prefix_refl _
  | l :: ls, s, scanErr => by
    have hstep := stepLine_calls env s l
    simp only [runLines]
    cases hs : stepLine env s l with
    | next s1 =>
      rw [hs] at hstep
      exact List.IsPrefix.trans hstep (runLines_calls env ls s1 scanErr)
    | ret r =>
      rw [hs] at hstep
      exact hstep

/-! ### Vertex -/

theorem Vertex.Format_eq {E F : Type} (entityFormat : E → List (Write F) → List (Write F))
    (v : Vertex E F) (f : List (Write F)) (c0 c1 c2 : F) (tl : List F)
    (hc : v.Coord = c0 :: c1 :: c2 :: tl) :
    v.Format entityFormat f =
      some (entityFormat v.entity f ++
        [Write.str 100 "AcDbVertex", Write.str 100 "AcDb3DPolylineVertex",
          Write.int 70 v.Flag, Write.float 10 c0, Write.float 20 c1, Write.float 30 c2]) := by
  simp [Vertex.Format, writeCoords, hc]

/-- Tags with none of the codes of the vertex layout leave the parse as it is. -/
theorem parseTags_skip {F : Type} (parseInt : String → Option Int)
    (parseFloat : String → Option F) :
    ∀ (hdr rest : List Tag) (acc : VertexAcc F),
      (∀ t ∈ hdr, t.1 ≠ "70" ∧ t.1 ≠ "10" ∧ t.1 ≠ "20" ∧ t.1 ≠ "30") →
      parseTags parseInt parseFloat acc (hdr ++ rest) = parseTags parseInt parseFloat acc rest
  | [], _, _, _ => rfl
  | t :: hdr, rest, acc, h => by
    obtain ⟨h1, h2, h3, h4⟩ := h t (List.mem_cons_self _ _)
    simp only [List.cons_append, parseTags, parseTag, h1, h2, h3, h4, if_false]
    exact parseTags_skip parseInt parseFloat hdr rest acc
      (fun u hu => h u (List.mem_cons_of_mem _ hu))

/-! ## The colour quantizer: claims -/

/-- C2, as amended. For a palette of RGB byte triples with at most 256 entries
and a triple `cl` that has some palette entry at squared distance below
1000000, `ColorIndex` returns a valid index whose entry is at least as near to
`cl` as every palette entry, and every lower index is strictly farther. -/
theorem ColorIndex_nearest_of_near (pal : Palette) (cl : List Int) (hwf : WfPalette pal)
    (hlen : pal.length ≤ 256) (hcl : 3 ≤ cl.length)
    (hnear : ∃ e ∈ pal, sqDist cl e < 1000000) :
    ∃ i, ColorIndex pal cl = some i ∧ i < pal.length ∧
      (∀ j, j < pal.length → sqDist cl (pal.getD i []) ≤ sqDist cl (pal.getD j [])) ∧
      (∀ j, j < i → sqDist cl (pal.getD i []) < sqDist cl (pal.getD j [])) := by
  obtain ⟨k, hk, ⟨h1, h2, h3⟩, _⟩ := colorIndex_firstMin pal cl hwf hlen hcl hnear
  exact ⟨k, hk, h1, h2, h3⟩

/-- C2, witness: the amended claim at the black-and-white palette and the triple (200, 200, 200). -/
theorem ColorIndex_nearest_of_near_witness :
    ∃ i, ColorIndex smallPal [200, 200, 200] = some i ∧ i < smallPal.length ∧
      (∀ j, j < smallPal.length →
        sqDist [200, 200, 200] (smallPal.getD i []) ≤ sqDist [200, 200, 200] (smallPal.getD j [])) ∧
      (∀ j, j < i →
        sqDist [200, 200, 200] (smallPal.getD i []) < sqDist [200, 200, 200] (smallPal.getD j [])) :=
  ColorIndex_nearest_of_near smallPal [200, 200, 200] (by decide) (by decide) (by decide)
    ⟨[255, 255, 255], by decide, by decide⟩

/-- C2, counterexample: on the black-and-white palette the triple
(1000, 1000, 1000) is nearer to white (index 1) than to black (index 0), yet
`ColorIndex` returns 0. -/
theorem ColorIndex_not_nearest_far :
    ColorIndex smallPal [1000, 1000, 1000] = some 0 ∧
      sqDist [1000, 1000, 1000] (smallPal.getD 1 []) <
        sqDist [1000, 1000, 1000] (smallPal.getD 0 []) := by
  decide

/-- C3, as amended. For a palette of RGB byte triples with at most 256 entries
and a valid index `i` whose colour occurs at no lower index, `ColorIndex`
applied to the components of `IndexColor i` returns `i`. -/
theorem ColorIndex_IndexColor_of_first (pal : Palette) (i : Nat) (e : Entry)
    (hwf : WfPalette pal) (hlen : pal.length ≤ 256) (hi : i < pal.length)
    (he : IndexColor pal i = some e) (hfirst : ∀ j, j < i → pal.getD j [] ≠ e) :
    ColorIndex pal (toInts e) = some i := by
  have him : i % 256 = i := by omega
  unfold IndexColor at he
  rw [him, List.getElem?_eq_getElem hi] at he
  injection he with he
  have hge : pal.getD i [] = e := by rw [List.getD_eq_getElem pal [] hi, he]
  have hmem : e ∈ pal := by rw [← he]; exact List.getElem_mem hi
  obtain ⟨k, hk, _, hke, hlow⟩ := colorIndex_exact pal (toInts e) hwf hlen ⟨e, hmem, rfl⟩
  have hki : k = i := by
    rcases Nat.lt_trichotomy k i with h | h | h
    · exact absurd (toInts_injective hke) (hfirst k h)
    · exact h
    · exact absurd (by rw [hge]) (hlow i h)
  rw [hk, hki]

/-- C3, witness: the amended claim at the black-and-white palette and index 1,
whose colour white occurs at no lower index. -/
theorem ColorIndex_IndexColor_of_first_witness :
    ColorIndex smallPal (toInts [255, 255, 255]) = some 1 :=
  ColorIndex_IndexColor_of_first smallPal 1 [255, 255, 255] (by decide) (by decide)
    (by decide) (by decide) (by decide)

/-- C3, counterexample: in a 256-entry palette whose entry 10 repeats the
colour of entry 1, `ColorIndex` applied to `IndexColor 10` returns 1, not 10. -/
theorem ColorIndex_IndexColor_dup :
    dupPal.length = 256 ∧ IndexColor dupPal 10 = some [255, 0, 0] ∧
      ColorIndex dupPal (toInts [255, 0, 0]) = some 1 := by
  decide

/-- C4, as amended. For a palette of RGB byte triples and a triple whose
components lie between -2^30 and 2^30 (so that no 64-bit product overflows),
`ColorIndex` with its early exit returns the same index as the scan carried
over the whole palette. -/
theorem ColorIndex_eq_full_of_inRange (pal : Palette) (cl : List Int) (hwf : WfPalette pal)
    (hcl : 3 ≤ cl.length)
    (hr : ∀ j, j < 3 → -1073741824 ≤ cl.getD j 0 ∧ cl.getD j 0 ≤ 1073741824) :
    ColorIndex pal cl = ColorIndexFull pal cl := by
  unfold ColorIndex ColorIndexFull
  rw [colorScan_eq_fullScan cl ⟨hcl, hr⟩ pal hwf 0 0 1000000]

/-- C4, witness: the amended claim at the black-and-white palette and the triple (0, 0, 0). -/
theorem ColorIndex_eq_full_of_inRange_witness :
    ColorIndex smallPal [0, 0, 0] = ColorIndexFull smallPal [0, 0, 0] :=
  ColorIndex_eq_full_of_inRange smallPal [0, 0, 0] (by decide) (by decide) (by decide)

/-- C4, counterexample: for the triple (2^32, 0, 0) the 64-bit square against
black wraps to 0, so `ColorIndex` exits at index 0, while the square against
(1, 0, 0) wraps to a negative number and the full scan ends on index 1. -/
theorem ColorIndex_ne_full_overflow :
    ColorIndex darkPal [4294967296, 0, 0] = some 0 ∧
      ColorIndexFull darkPal [4294967296, 0, 0] = some 1 := by
  decide

/-- C5. For a palette of RGB byte triples with at most 256 entries: if some
entry equals `cl` exactly, `ColorIndex` returns the lowest index whose entry
equals `cl`; in particular for white when the palette has a white entry; and
`ColorIndex` applied to `IndexColor i` is an index `j ≤ i` with the colour of `i`. -/
theorem ColorIndex_exact_match (pal : Palette) (hwf : WfPalette pal)
    (hlen : pal.length ≤ 256) :
    (∀ cl : List Int, (∃ e ∈ pal, toInts e = cl) →
      ∃ k, ColorIndex pal cl = some k ∧ k < pal.length ∧ toInts (pal.getD k []) = cl ∧
        ∀ j, j < k → toInts (pal.getD j []) ≠ cl) ∧
    (([255, 255, 255] : Entry) ∈ pal →
      ∃ k, ColorIndex pal [255, 255, 255] = some k ∧ k < pal.length ∧
        pal.getD k [] = [255, 255, 255] ∧ ∀ j, j < k → pal.getD j [] ≠ [255, 255, 255]) ∧
    (∀ (i : Nat) (e : Entry), i < 256 → IndexColor pal i = some e →
      ∃ j, ColorIndex pal (toInts e) = some j ∧ j ≤ i ∧ pal.getD j [] = e) := by
  refine ⟨fun cl hex => colorIndex_exact pal cl hwf hlen hex, ?_, ?_⟩
  · intro hw
    obtain ⟨k, hk, hkl, hke, hlow⟩ :=
      colorIndex_exact pal (toInts [255, 255, 255]) hwf hlen ⟨_, hw, rfl⟩
    refine ⟨k, hk, hkl, toInts_injective hke, ?_⟩
    intro j hj hc
    exact hlow j hj (by rw [hc])
  · intro i e hi he
    have him : i % 256 = i := by omega
    unfold IndexColor at he
    rw [him] at he
    obtain ⟨hil, hie⟩ := List.getElem?_eq_some.mp he
    have hmem : e ∈ pal := by rw [← hie]; exact List.getElem_mem hil
    obtain ⟨k, hk, _, hke, hlow⟩ := colorIndex_exact pal (toInts e) hwf hlen ⟨e, hmem, rfl⟩
    refine ⟨k, hk, ?_, toInts_injective hke⟩
    by_contra hc
    have hgi : pal.getD i [] = e := by rw [List.getD_eq_getElem pal [] hil, hie]
    exact hlow i (by omega) (by rw [hgi])

/-- C5, witness: the claim at the 256-entry sample palette, whose white entry is at index 7. -/
theorem ColorIndex_exact_match_witness :
    (∀ cl : List Int, (∃ e ∈ dupPal, toInts e = cl) →
      ∃ k, ColorIndex dupPal cl = some k ∧ k < dupPal.length ∧
        toInts (dupPal.getD k []) = cl ∧ ∀ j, j < k → toInts (dupPal.getD j []) ≠ cl) ∧
    (([255, 255, 255] : Entry) ∈ dupPal →
      ∃ k, ColorIndex dupPal [255, 255, 255] = some k ∧ k < dupPal.length ∧
        dupPal.getD k [] = [255, 255, 255] ∧
        ∀ j, j < k → dupPal.getD j [] ≠ [255, 255, 255]) ∧
    (∀ (i : Nat) (e : Entry), i < 256 → IndexColor dupPal i = some e →
      ∃ j, ColorIndex dupPal (toInts e) = some j ∧ j ≤ i ∧ dupPal.getD j [] = e) :=
  ColorIndex_exact_match dupPal (by decide) (by decide)

/-! ## The section dispatcher: claims -/

/-- C1, as amended. For a well-formed stream (well-formed sections followed
by `0/EOF`) on which every parser call succeeds, `Open` returns no error and
calls a parser exactly once per section, in stream order: on the slot resolved
from the section's name, with the number of the line following the name tag
and the section's body tags (code trimmed, value as read). -/
theorem Open_wellFormed {D : Type} (env : Env D) (secs : List Sec) (eof : Tag)
    (scanErr : Option String) (hwf : ∀ x ∈ secs, WfSec env x)
    (heof : env.TrimSpace eof.1 = "0" ∧ env.ToUpper eof.2 = "EOF")
    (hok : allSucceed env env.NewDrawing (expectedCalls env 0 secs) = true) :
    (Open env (Except.ok ⟨streamLines secs ++ [eof.1, eof.2], scanErr⟩)).outcome = Outcome.ok ∧
      (Open env (Except.ok ⟨streamLines secs ++ [eof.1, eof.2], scanErr⟩)).calls =
        expectedCalls env 0 secs := by
  obtain ⟨s', hrun, hl, hs, hc⟩ := runLines_sections env secs (initState env)
    [eof.1, eof.2] rfl rfl rfl hwf hok
  unfold Open
  simp only
  rw [hrun, tag_eof env s' eof.1 eof.2 [] hl hs heof.1 heof.2]
  simp only [hc, initState, List.nil_append, and_self]

/-- C1, witness: two sections, `ENTITIES` with one tag and `TABLES` with none,
then `0/EOF`, with parsers that accept everything. -/
theorem Open_wellFormed_witness :
    (Open recEnv (Except.ok ⟨streamLines twoSecs ++ ["0", "EOF"], none⟩)).outcome =
        Outcome.ok ∧
      (Open recEnv (Except.ok ⟨streamLines twoSecs ++ ["0", "EOF"], none⟩)).calls =
        expectedCalls recEnv 0 twoSecs :=
  Open_wellFormed recEnv twoSecs ("0", "EOF") none (by decide) (by decide) (by decide)

/-- C1, counterexample: on the well-formed stream of two sections `ENTITIES`
and `TABLES`, with parsers that fail, `Open` makes one call, not one per
section, and returns the error of that call. -/
theorem Open_wellFormed_parser_fails :
    (∀ x ∈ twoSecs, WfSec failEnv x) ∧
      streamLines twoSecs ++ ["0", "EOF"] =
        ["0", "SECTION", "2", "ENTITIES", "0", "VERTEX", "0", "ENDSEC",
         "0", "SECTION", "2", "TABLES", "0", "ENDSEC", "0", "EOF"] ∧
      (Open failEnv (Except.ok ⟨streamLines twoSecs ++ ["0", "EOF"], none⟩)).calls =
        [⟨some 4, 5, [("0", "VERTEX")]⟩] ∧
      (Open failEnv (Except.ok ⟨streamLines twoSecs ++ ["0", "EOF"], none⟩)).outcome =
        Outcome.error "bad record" := by
  decide

/-- C6. When `Open` reaches a `0/SECTION` tag (after the tags `pre`, outside a
header) and the next tag has a trimmed code other than `2`, it returns the
error whose text is `line N: invalid group code: <code>`, with `N` the decimal
number of that tag's value line and `<code>` the trimmed code, and the calls
made are those made before the `0/SECTION` tag. -/
theorem Open_invalid_group_code {D : Type} (env : Env D) (pre : List Tag) (s : State D)
    (c0 v0 c1 v1 : String) (rest : List String) (scanErr : Option String)
    (hreach : runLines env (initState env) (linesOf pre) = Step.next s)
    (hidle : s.setreader = false)
    (hc0 : env.TrimSpace c0 = "0") (hv0 : env.ToUpper v0 = "SECTION")
    (hc1 : env.TrimSpace c1 ≠ "2") :
    Open env (Except.ok ⟨linesOf pre ++ c0 :: v0 :: c1 :: v1 :: rest, scanErr⟩) =
      ⟨Outcome.error ("line " ++ toString (2 * pre.length + 4) ++ ": invalid group code: " ++
          env.TrimSpace c1),
        some s.d, s.calls⟩ := by
  have hl := reach_line env pre s hreach
  unfold Open
  simp only
  rw [runLines_append, hreach]
  simp only
  rw [tag_section env s c0 v0 _ (by omega) hidle hc0 hv0,
    tag_header_bad_code env _ c1 v1 rest (by simp only; omega) rfl hc1]
  simp only [hl, invalidGroupCode]

/-- C6, witness: the stream `999/note`, `0/SECTION`, `0/ENTITIES` fails with the
text `line 6: invalid group code: 0`. -/
theorem Open_invalid_group_code_witness :
    Open recEnv (Except.ok ⟨linesOf [("999", "note")] ++ ["0", "SECTION", "0", "ENTITIES"], none⟩) =
      ⟨Outcome.error "line 6: invalid group code: 0", some [], []⟩ :=
  Open_invalid_group_code recEnv [("999", "note")]
    { d := [], code := "999", reader := none, data := [("999", "note")], setreader := false,
      line := 2, startline := 0, calls := [] }
    "0" "SECTION" "0" "ENTITIES" [] none rfl rfl (by decide) (by decide) (by decide)

/-- C7. When `Open` reaches a section header `2/<name>` whose upper-cased name
is not in the registry, it returns the error whose text is `line N: unknown
section name: <name>`, with `N` the decimal number of the name's line and the
name as written; the
calls made are those made before the header, and when no `0/ENDSEC` tag
precedes the header no parser is called and the drawing is the new drawing. -/
theorem Open_unknown_section {D : Type} (env : Env D) (pre : List Tag) (s : State D)
    (c0 v0 c1 v1 : String) (rest : List String) (scanErr : Option String)
    (hreach : runLines env (initState env) (linesOf pre) = Step.next s)
    (hidle : s.setreader = false)
    (hc0 : env.TrimSpace c0 = "0") (hv0 : env.ToUpper v0 = "SECTION")
    (hc1 : env.TrimSpace c1 = "2") (hname : env.SectionTypeValue (env.ToUpper v1) < 0) :
    Open env (Except.ok ⟨linesOf pre ++ c0 :: v0 :: c1 :: v1 :: rest, scanErr⟩) =
        ⟨Outcome.error ("line " ++ toString (2 * pre.length + 4) ++
            ": unknown section name: " ++ v1), some s.d, s.calls⟩ ∧
      ((∀ t ∈ pre, ¬ (env.TrimSpace t.1 = "0" ∧ env.ToUpper t.2 = "ENDSEC")) →
        (Open env (Except.ok ⟨linesOf pre ++ c0 :: v0 :: c1 :: v1 :: rest, scanErr⟩)).calls = [] ∧
        (Open env (Except.ok ⟨linesOf pre ++ c0 :: v0 :: c1 :: v1 :: rest, scanErr⟩)).d =
          some env.NewDrawing) := by
  have hl := reach_line env pre s hreach
  have hopen : Open env (Except.ok ⟨linesOf pre ++ c0 :: v0 :: c1 :: v1 :: rest, scanErr⟩) =
      ⟨Outcome.error ("line " ++ toString (2 * pre.length + 4) ++
          ": unknown section name: " ++ v1), some s.d, s.calls⟩ := by
    unfold Open
    simp only
    rw [runLines_append, hreach]
    simp only
    rw [tag_section env s c0 v0 _ (by omega) hidle hc0 hv0,
      tag_header_unknown env _ c1 v1 rest (by simp only; omega) rfl hc1 hname]
    simp only [hl, unknownSectionName]
  refine ⟨hopen, ?_⟩
  intro hno
  have h := calls_of_no_endsec env pre (initState env) s rfl hreach hno
  rw [hopen]
  simp only [h.1, h.2, initState, and_self]

/-- C7, witness: the stream `0/SECTION`, `2/FOOBAR` fails with the text
`line 4: unknown section name: FOOBAR` and no call. -/
theorem Open_unknown_section_witness :
    Open recEnv (Except.ok ⟨linesOf [] ++ ["0", "SECTION", "2", "FOOBAR", "0", "ENDSEC"], none⟩) =
        ⟨Outcome.error "line 4: unknown section name: FOOBAR", some [], []⟩ ∧
      ((∀ t ∈ ([] : List Tag),
          ¬ (recEnv.TrimSpace t.1 = "0" ∧ recEnv.ToUpper t.2 = "ENDSEC")) →
        (Open recEnv (Except.ok
          ⟨linesOf [] ++ ["0", "SECTION", "2", "FOOBAR", "0", "ENDSEC"], none⟩)).calls = [] ∧
        (Open recEnv (Except.ok
          ⟨linesOf [] ++ ["0", "SECTION", "2", "FOOBAR", "0", "ENDSEC"], none⟩)).d =
          some recEnv.NewDrawing) :=
  Open_unknown_section recEnv [] (initState recEnv) "0" "SECTION" "2" "FOOBAR"
    ["0", "ENDSEC"] none rfl rfl (by decide) (by decide) (by decide) (by decide)

/-- C8. When the input ends, with no scanner error, after a resolved section
header followed by plain tags, and the buffer is not empty, `Open` calls the
parser of that section once more than before the header, with the number of
the line following the header and the buffered tags in order, and returns the
result of that call. -/
theorem Open_flush_at_end {D : Type} (env : Env D) (pre : List Tag) (s : State D)
    (c0 v0 c1 v1 : String) (body : List Tag)
    (hreach : runLines env (initState env) (linesOf pre) = Step.next s)
    (hidle : s.setreader = false)
    (hc0 : env.TrimSpace c0 = "0") (hv0 : env.ToUpper v0 = "SECTION")
    (hc1 : env.TrimSpace c1 = "2") (hname : 0 ≤ env.SectionTypeValue (env.ToUpper v1))
    (hbody : ∀ t ∈ body, IsPlain env t)
    (hne : s.data ++ body.map (buffered env) ≠ []) :
    Open env (Except.ok ⟨linesOf pre ++ c0 :: v0 :: c1 :: v1 :: linesOf body, none⟩) =
      ⟨match (env.Read (env.SectionTypeValue (env.ToUpper v1)) (2 * pre.length + 5)
                (s.data ++ body.map (buffered env)) s.d).1 with
        | some e => Outcome.error e
        | none => Outcome.ok,
       some (env.Read (env.SectionTypeValue (env.ToUpper v1)) (2 * pre.length + 5)
                (s.data ++ body.map (buffered env)) s.d).2,
       s.calls ++ [⟨some (env.SectionTypeValue (env.ToUpper v1)), 2 * pre.length + 5,
                s.data ++ body.map (buffered env)⟩]⟩ := by
  have hl := reach_line env pre s hreach
  unfold Open
  simp only
  rw [runLines_append, hreach]
  simp only
  rw [tag_section env s c0 v0 _ (by omega) hidle hc0 hv0,
    tag_header_ok env _ c1 v1 _ (by simp only; omega) rfl hc1 hname]
  simp only
  obtain ⟨code', hb⟩ := runLines_body env body
    { s with line := s.line + 2 + 2, code := env.TrimSpace c1,
             reader := some (env.SectionTypeValue (env.ToUpper v1)),
             startline := s.line + 2 + 3, setreader := false }
    [] (by simp only; omega) rfl hbody
  simp only [List.append_nil] at hb
  rw [hb]
  have hpos : (s.data ++ body.map (buffered env)).length > 0 :=
    List.length_pos.mpr hne
  have e5 : s.line + 2 + 3 = 2 * pre.length + 5 := by omega
  simp only [runLines, finish, hpos, if_true, invoke, callOf, e5]
  cases env.Read (env.SectionTypeValue (env.ToUpper v1)) (2 * pre.length + 5)
      (s.data ++ body.map (buffered env)) s.d with
  | mk err d' => cases err <;> rfl

/-- C8, witness: the input `0/SECTION`, `2/ENTITIES`, `0/VERTEX`, ` 8/layer` ends
without `0/ENDSEC`; both tags reach the parser of slot 4 with start line 5. -/
theorem Open_flush_at_end_witness :
    Open recEnv (Except.ok
        ⟨linesOf [] ++ "0" :: "SECTION" :: "2" :: "ENTITIES" ::
          linesOf [("0", "VERTEX"), (" 8", "layer")], none⟩) =
      ⟨Outcome.ok, some [(4, [("0", "VERTEX"), ("8", "layer")])],
        [⟨some 4, 5, [("0", "VERTEX"), ("8", "layer")]⟩]⟩ :=
  Open_flush_at_end recEnv [] (initState recEnv) "0" "SECTION" "2" "ENTITIES"
    [("0", "VERTEX"), (" 8", "layer")] rfl rfl (by decide) (by decide) (by decide)
    (by decide) (by decide) (by decide)

/-- C9. When `Open` reaches, outside a header, a code-0 tag whose upper-cased
value is `EOF`, it returns no error and makes no call there, whatever the
pending buffer holds: the calls are those made before the tag; and the result
is that of the stream cut right after the tag, whatever follows. -/
theorem Open_eof {D : Type} (env : Env D) (pre : List Tag) (s : State D)
    (c v : String) (rest : List String) (scanErr : Option String)
    (hreach : runLines env (initState env) (linesOf pre) = Step.next s)
    (hidle : s.setreader = false)
    (hc : env.TrimSpace c = "0") (hv : env.ToUpper v = "EOF") :
    Open env (Except.ok ⟨linesOf pre ++ c :: v :: rest, scanErr⟩) =
        ⟨Outcome.ok, some s.d, s.calls⟩ ∧
      Open env (Except.ok ⟨linesOf pre ++ c :: v :: rest, scanErr⟩) =
        Open env (Except.ok ⟨linesOf pre ++ [c, v], none⟩) := by
  have hl := reach_line env pre s hreach
  have key : ∀ (ls : List String) (e : Option String),
      Open env (Except.ok ⟨linesOf pre ++ c :: v :: ls, e⟩) =
        ⟨Outcome.ok, some s.d, s.calls⟩ := by
    intro ls e
    unfold Open
    simp only
    rw [runLines_append, hreach]
    simp only
    rw [tag_eof env s c v ls (by omega) hidle hc hv]
  exact ⟨key rest scanErr, by rw [key rest scanErr, key [] none]⟩

/-- C9, witness: after `0/SECTION`, `2/ENTITIES`, `0/VERTEX` the tag `0/eof`
ends the run with no call, the buffered tag being dropped. -/
theorem Open_eof_witness :
    Open recEnv (Except.ok ⟨linesOf [("0", "SECTION"), ("2", "ENTITIES"), ("0", "VERTEX")] ++
        "0" :: "eof" :: ["0", "ENDSEC"], some "token too long"⟩) =
        ⟨Outcome.ok, some [], []⟩ ∧
      Open recEnv (Except.ok ⟨linesOf [("0", "SECTION"), ("2", "ENTITIES"), ("0", "VERTEX")] ++
        "0" :: "eof" :: ["0", "ENDSEC"], some "token too long"⟩) =
        Open recEnv (Except.ok
          ⟨linesOf [("0", "SECTION"), ("2", "ENTITIES"), ("0", "VERTEX")] ++ ["0", "eof"], none⟩) :=
  Open_eof recEnv [("0", "SECTION"), ("2", "ENTITIES"), ("0", "VERTEX")]
    { d := [], code := "0", reader := some 4, data := [("0", "VERTEX")], setreader := false,
      line := 6, startline := 5, calls := [] }
    "0" "eof" ["0", "ENDSEC"] (some "token too long") rfl rfl (by decide) (by decide)

/-- C10, as amended. An odd number of lines is no error: a last code line
without its value line is ignored, so for an even number of lines followed by
one more line `Open` returns what it returns without that line. -/
theorem Open_ignores_dangling_code {D : Type} (env : Env D) (lines : List String)
    (l : String) (scanErr : Option String) (hev : lines.length % 2 = 0) :
    Open env (Except.ok ⟨lines ++ [l], scanErr⟩) = Open env (Except.ok ⟨lines, scanErr⟩) := by
  unfold Open
  simp only
  rw [runLines_append]
  cases h : runLines env (initState env) lines with
  | ret r => rfl
  | next s =>
    have hl : s.line = lines.length := by
      rw [runLines_line env _ _ _ h]
      simp [initState]
    have h1 : (s.line + 1) % 2 = 1 := by omega
    simp only [runLines, stepLine, h1, if_true]
    cases scanErr <;> rfl

/-- C10, witness: the amended claim at `0/SECTION` followed by the lone code line `2`. -/
theorem Open_ignores_dangling_code_witness :
    Open recEnv (Except.ok ⟨["0", "SECTION"] ++ ["2"], none⟩) =
      Open recEnv (Except.ok ⟨["0", "SECTION"], none⟩) :=
  Open_ignores_dangling_code recEnv ["0", "SECTION"] "2" none (by decide)

/-- C10, counterexample: the three-line input `0`, `SECTION`, `2` ends on a
code line without its value line, and `Open` returns no error. -/
theorem Open_odd_lines_ok :
    ["0", "SECTION", "2"].length % 2 = 1 ∧
      (Open recEnv (Except.ok ⟨["0", "SECTION", "2"], none⟩)).outcome = Outcome.ok := by
  decide

/-! ## Further claims: dispatcher, vertex, colour quantizer -/

/-- C11. When the parser that `Open` calls at a `0/ENDSEC` tag returns an
error, `Open` returns exactly that error with the drawing as the call left it,
makes no further call, and the result does not depend on what follows. -/
theorem Open_parser_error {D : Type} (env : Env D) (pre : List Tag) (s : State D)
    (c v : String) (rest : List String) (scanErr : Option String)
    (i : Int) (e : String) (d' : D)
    (hreach : runLines env (initState env) (linesOf pre) = Step.next s)
    (hidle : s.setreader = false)
    (hc : env.TrimSpace c = "0") (hv : env.ToUpper v = "ENDSEC")
    (hr : s.reader = some i)
    (hfail : env.Read i s.startline s.data s.d = (some e, d')) :
    Open env (Except.ok ⟨linesOf pre ++ c :: v :: rest, scanErr⟩) =
        ⟨Outcome.error e, some d', s.calls ++ [⟨some i, s.startline, s.data⟩]⟩ ∧
      Open env (Except.ok ⟨linesOf pre ++ c :: v :: rest, scanErr⟩) =
        Open env (Except.ok ⟨linesOf pre ++ [c, v], none⟩) := by
  have hl := reach_line env pre s hreach
  have key : ∀ (ls : List String) (er : Option String),
      Open env (Except.ok ⟨linesOf pre ++ c :: v :: ls, er⟩) =
        ⟨Outcome.error e, some d', s.calls ++ [⟨some i, s.startline, s.data⟩]⟩ := by
    intro ls er
    unfold Open
    simp only
    rw [runLines_append, hreach]
    simp only
    rw [tag_endsec env s c v ls (by omega) hidle hc hv]
    simp only [invoke, hr, hfail, callOf]
  exact ⟨key rest scanErr, by rw [key rest scanErr, key [] none]⟩

/-- C11, witness: with failing parsers the stream `0/SECTION`, `2/ENTITIES`,
`0/VERTEX`, `0/ENDSEC` followed by more lines returns the parser's error. -/
theorem Open_parser_error_witness :
    Open failEnv (Except.ok ⟨linesOf [("0", "SECTION"), ("2", "ENTITIES"), ("0", "VERTEX")] ++
        "0" :: "ENDSEC" :: ["0", "SECTION", "2", "TABLES"], none⟩) =
        ⟨Outcome.error "bad record", some [], [] ++ [⟨some 4, 5, [("0", "VERTEX")]⟩]⟩ ∧
      Open failEnv (Except.ok ⟨linesOf [("0", "SECTION"), ("2", "ENTITIES"), ("0", "VERTEX")] ++
        "0" :: "ENDSEC" :: ["0", "SECTION", "2", "TABLES"], none⟩) =
        Open failEnv (Except.ok
          ⟨linesOf [("0", "SECTION"), ("2", "ENTITIES"), ("0", "VERTEX")] ++ ["0", "ENDSEC"],
            none⟩) :=
  Open_parser_error failEnv [("0", "SECTION"), ("2", "ENTITIES"), ("0", "VERTEX")]
    { d := [], code := "0", reader := some 4, data := [("0", "VERTEX")], setreader := false,
      line := 6, startline := 5, calls := [] }
    "0" "ENDSEC" ["0", "SECTION", "2", "TABLES"] none 4 "bad record" [] rfl rfl
    (by decide) (by decide) rfl rfl

/-- C12. Changing the letter case of section names and of the code-0 values
`SECTION`, `ENDSEC`, `EOF` changes neither the parser calls of `Open` (slot,
start line, tags) nor whether it fails; and a plain tag reaches the parser
with its value exactly as read. -/
theorem Open_case_insensitive {D : Type} (env : Env D) (ts ts' : List Tag)
    (scanErr : Option String) (h : caseVariant env false ts ts') :
    ((Open env (Except.ok ⟨linesOf ts, scanErr⟩)).calls =
        (Open env (Except.ok ⟨linesOf ts', scanErr⟩)).calls ∧
      ((Open env (Except.ok ⟨linesOf ts, scanErr⟩)).outcome = Outcome.ok ↔
        (Open env (Except.ok ⟨linesOf ts', scanErr⟩)).outcome = Outcome.ok)) ∧
    (∀ (pre : List Tag) (s : State D) (c v c0 v0 : String) (rest : List String)
        (er : Option String),
      runLines env (initState env) (linesOf pre) = Step.next s → s.setreader = false →
      IsPlain env (c, v) → env.TrimSpace c0 = "0" → env.ToUpper v0 = "ENDSEC" →
      (⟨s.reader, s.startline, s.data ++ [(env.TrimSpace c, v)]⟩ : Call) ∈
        (Open env (Except.ok ⟨linesOf pre ++ c :: v :: c0 :: v0 :: rest, er⟩)).calls) := by
  refine ⟨?_, ?_⟩
  · unfold Open
    simp only
    rcases runLines_caseVariant env ts ts' (initState env) rfl h with
      ⟨s', h1, h2⟩ | ⟨r, r', h1, h2, hc, _, ho⟩
    · rw [h1, h2]
      exact ⟨rfl, Iff.rfl⟩
    · rw [h1, h2]
      refine ⟨hc, ?_⟩
      rcases ho with ho | ⟨m, m', hm, hm'⟩
      · rw [ho]
      · rw [hm, hm']
        simp
  · intro pre s c v c0 v0 rest er hreach hidle hp hc0 hv0
    have hl := reach_line env pre s hreach
    have hpre := runLines_calls env rest
    unfold Open
    simp only
    rw [runLines_append, hreach]
    simp only
    rw [tag_plain env s c v _ (by omega) hidle hp,
      tag_endsec env { s with line := s.line + 2, code := env.TrimSpace c,
                              data := s.data ++ [(env.TrimSpace c, v)] }
        c0 v0 rest (by simp only; omega) hidle hc0 hv0]
    rcases hinv : invoke env
        { s with line := s.line + 2, code := env.TrimSpace c,
                 data := s.data ++ [(env.TrimSpace c, v)] } with ⟨o, d⟩
    have hmem : ∀ l : List Call,
        (s.calls ++ [(⟨s.reader, s.startline, s.data ++ [(env.TrimSpace c, v)]⟩ : Call)]) <+: l →
        (⟨s.reader, s.startline, s.data ++ [(env.TrimSpace c, v)]⟩ : Call) ∈ l := by
      intro l hl
      exact hl.subset (by simp)
    cases o with
    | ok =>
      have hgrow := hpre
        { d := d, code := env.TrimSpace c0, reader := s.reader, data := [],
          setreader := s.setreader, line := s.line + 2 + 2, startline := s.line + 2 + 3,
          calls := s.calls ++
            [(⟨s.reader, s.startline, s.data ++ [(env.TrimSpace c, v)]⟩ : Call)] } er
      exact hmem _ hgrow
    | error m => exact hmem _ (List.prefix_refl _)
    | nilDeref => exact hmem _ (List.prefix_refl _)

/-- C12, witness: the stream `0/SECTION`, `2/ENTITIES`, `0/Vertex`, `0/ENDSEC`,
`0/EOF` and its variant in other letter cases. -/
theorem Open_case_insensitive_witness :
    ((Open recEnv (Except.ok ⟨linesOf [("0", "SECTION"), ("2", "ENTITIES"), ("0", "Vertex"),
          ("0", "ENDSEC"), ("0", "EOF")], none⟩)).calls =
        (Open recEnv (Except.ok ⟨linesOf [("0", "section"), ("2", "Entities"), ("0", "Vertex"),
          ("0", "EndSec"), ("0", "eof")], none⟩)).calls ∧
      ((Open recEnv (Except.ok ⟨linesOf [("0", "SECTION"), ("2", "ENTITIES"), ("0", "Vertex"),
          ("0", "ENDSEC"), ("0", "EOF")], none⟩)).outcome = Outcome.ok ↔
        (Open recEnv (Except.ok ⟨linesOf [("0", "section"), ("2", "Entities"), ("0", "Vertex"),
          ("0", "EndSec"), ("0", "eof")], none⟩)).outcome = Outcome.ok)) ∧
    (∀ (pre : List Tag) (s : State (List (Int × List Tag))) (c v c0 v0 : String)
        (rest : List String) (er : Option String),
      runLines recEnv (initState recEnv) (linesOf pre) = Step.next s → s.setreader = false →
      IsPlain recEnv (c, v) → recEnv.TrimSpace c0 = "0" → recEnv.ToUpper v0 = "ENDSEC" →
      (⟨s.reader, s.startline, s.data ++ [(recEnv.TrimSpace c, v)]⟩ : Call) ∈
        (Open recEnv (Except.ok ⟨linesOf pre ++ c :: v :: c0 :: v0 :: rest, er⟩)).calls) :=
  Open_case_insensitive recEnv
    [("0", "SECTION"), ("2", "ENTITIES"), ("0", "Vertex"), ("0", "ENDSEC"), ("0", "EOF")]
    [("0", "section"), ("2", "Entities"), ("0", "Vertex"), ("0", "EndSec"), ("0", "eof")]
    none (by decide)

/-- C13. For a vertex with at least three coordinates `Vertex.Format` emits the
entity header and then appends exactly the tags (100, AcDbVertex),
(100, AcDb3DPolylineVertex), (70, Flag), (10, Coord[0]), (20, Coord[1]),
(30, Coord[2]), coordinate `i` at code `10 + 10 * i`; a vertex built by
`NewVertex x y z` has flag 32 and the coordinates `x`, `y`, `z`. -/
theorem Vertex_Format_tags {E F : Type} (entityFormat : E → List (Write F) → List (Write F))
    (v : Vertex E F) (f : List (Write F)) (c0 c1 c2 : F) (tl : List F)
    (hc : v.Coord = c0 :: c1 :: c2 :: tl) :
    v.Format entityFormat f =
        some (entityFormat v.entity f ++
          [Write.str 100 "AcDbVertex", Write.str 100 "AcDb3DPolylineVertex",
            Write.int 70 v.Flag, Write.float 10 c0, Write.float 20 c1, Write.float 30 c2]) ∧
      [Write.float 10 c0, Write.float 20 c1, Write.float 30 c2] =
        [Write.float (10 + 10 * 0) c0, Write.float (10 + 10 * 1) c1,
          Write.float (10 + 10 * 2) c2] ∧
      (∀ (e : E) (x y z : F),
        (NewVertex e x y z).Flag = 32 ∧ (NewVertex e x y z).Coord = [x, y, z] ∧
        (NewVertex e x y z).Format entityFormat f =
          some (entityFormat e f ++
            [Write.str 100 "AcDbVertex", Write.str 100 "AcDb3DPolylineVertex",
              Write.int 70 32, Write.float 10 x, Write.float 20 y, Write.float 30 z])) := by
  refine ⟨Vertex.Format_eq entityFormat v f c0 c1 c2 tl hc, rfl, ?_⟩
  intro e x y z
  exact ⟨rfl, rfl, Vertex.Format_eq entityFormat (NewVertex e x y z) f x y z [] rfl⟩

/-- C13, witness: the claim at a vertex with flag 32 and four coordinates, on
the sample entity header. -/
theorem Vertex_Format_tags_witness :
    (Vertex.Format sampleHeader ⟨(), 32, ["1.5", "2.5", "3.5", "9"]⟩ []) =
        some (sampleHeader () [] ++
          [Write.str 100 "AcDbVertex", Write.str 100 "AcDb3DPolylineVertex",
            Write.int 70 32, Write.float 10 "1.5", Write.float 20 "2.5",
            Write.float 30 "3.5"]) ∧
      [Write.float 10 "1.5", Write.float 20 "2.5", Write.float 30 "3.5"] =
        [Write.float (10 + 10 * 0) "1.5", Write.float (10 + 10 * 1) "2.5",
          Write.float (10 + 10 * 2) "3.5"] ∧
      (∀ (e : Unit) (x y z : String),
        (NewVertex e x y z).Flag = 32 ∧ (NewVertex e x y z).Coord = [x, y, z] ∧
        (NewVertex e x y z).Format sampleHeader [] =
          some (sampleHeader e [] ++
            [Write.str 100 "AcDbVertex", Write.str 100 "AcDb3DPolylineVertex",
              Write.int 70 32, Write.float 10 x, Write.float 20 y, Write.float 30 z])) :=
  Vertex_Format_tags sampleHeader ⟨(), 32, ["1.5", "2.5", "3.5", "9"]⟩ [] "1.5" "2.5" "3.5"
    ["9"] rfl

/-- C14. For a vertex with three coordinates whose flag and coordinates
survive the conversion to text and back, and whose entity header uses none of
the codes 70, 10, 20, 30, parsing the tags that `Vertex.Format` emits gives
back the flag and the three coordinates. -/
theorem Vertex_roundtrip {E F : Type} (entityFormat : E → List (Write F) → List (Write F))
    (fmtInt : Int → String) (fmtFloat : F → String)
    (parseInt : String → Option Int) (parseFloat : String → Option F)
    (v : Vertex E F) (c0 c1 c2 : F) (hc : v.Coord = [c0, c1, c2])
    (hflag : parseInt (fmtInt v.Flag) = some v.Flag)
    (h0 : parseFloat (fmtFloat c0) = some c0) (h1 : parseFloat (fmtFloat c1) = some c1)
    (h2 : parseFloat (fmtFloat c2) = some c2)
    (hhdr : ∀ w ∈ entityFormat v.entity [],
      (renderTag fmtInt fmtFloat w).1 ≠ "70" ∧ (renderTag fmtInt fmtFloat w).1 ≠ "10" ∧
      (renderTag fmtInt fmtFloat w).1 ≠ "20" ∧ (renderTag fmtInt fmtFloat w).1 ≠ "30") :
    ∃ ws, v.Format entityFormat [] = some ws ∧
      parseVertex parseInt parseFloat (ws.map (renderTag fmtInt fmtFloat)) =
        Except.ok ⟨v.Flag, v.Coord⟩ := by
  refine ⟨_, Vertex.Format_eq entityFormat v [] c0 c1 c2 [] hc, ?_⟩
  have hskip := parseTags_skip parseInt parseFloat
    ((entityFormat v.entity []).map (renderTag fmtInt fmtFloat))
    ([Write.str 100 "AcDbVertex", Write.str 100 "AcDb3DPolylineVertex",
      Write.int 70 v.Flag, Write.float 10 c0, Write.float 20 c1,
      Write.float 30 c2].map (renderTag fmtInt fmtFloat))
    ⟨none, none, none, none⟩
    (by
      intro t ht
      obtain ⟨w, hw, rfl⟩ := List.mem_map.mp ht
      exact hhdr w hw)
  have e100 : toString (100 : Nat) = "100" := by decide
  have e70 : toString (70 : Nat) = "70" := by decide
  have e10 : toString (10 : Nat) = "10" := by decide
  have e20 : toString (20 : Nat) = "20" := by decide
  have e30 : toString (30 : Nat) = "30" := by decide
  have n1 : ¬ ("100" = "70") := by decide
  have n2 : ¬ ("100" = "10") := by decide
  have n3 : ¬ ("100" = "20") := by decide
  have n4 : ¬ ("100" = "30") := by decide
  have n5 : ¬ ("10" = "70") := by decide
  have n6 : ¬ ("20" = "70") := by decide
  have n7 : ¬ ("20" = "10") := by decide
  have n8 : ¬ ("30" = "70") := by decide
  have n9 : ¬ ("30" = "10") := by decide
  have n10 : ¬ ("30" = "20") := by decide
  unfold parseVertex
  rw [List.map_append, hskip]
  simp only [List.map_cons, List.map_nil, renderTag, parseTags, parseTag, e100, e70, e10, e20,
    e30, n1, n2, n3, n4, n5, n6, n7, n8, n9, n10, if_false, if_true, hflag, h0, h1, h2, hc]

/-- C14, witness: a vertex with flag 32 and coordinates kept as their decimal
text, on the sample entity header. -/
theorem Vertex_roundtrip_witness :
    ∃ ws, Vertex.Format sampleHeader ⟨(), 32, ["1.5", "2.5", "3.5"]⟩ [] = some ws ∧
      parseVertex sampleParseInt some (ws.map (renderTag sampleFmtInt id)) =
        Except.ok ⟨32, ["1.5", "2.5", "3.5"]⟩ :=
  Vertex_roundtrip sampleHeader sampleFmtInt id sampleParseInt some
    ⟨(), 32, ["1.5", "2.5", "3.5"]⟩ "1.5" "2.5" "3.5" rfl (by decide) rfl rfl rfl (by decide)

/-- C15. With a 256-entry palette `IndexColor` never fails: for every value of
the 8-bit index it returns exactly the palette entry at that position. -/
theorem IndexColor_lookup (pal : Palette) (hlen : pal.length = 256) (index : Nat)
    (hi : index < 256) :
    ∃ e, IndexColor pal index = some e ∧ pal[index]? = some e ∧ pal.getD index [] = e := by
  unfold IndexColor
  rw [Nat.mod_eq_of_lt hi]
  have hlt : index < pal.length := by omega
  exact ⟨pal[index], List.getElem?_eq_getElem hlt, List.getElem?_eq_getElem hlt,
    List.getD_eq_getElem pal [] hlt⟩

/-- C15, witness: the claim at the 256-entry sample palette and index 10. -/
theorem IndexColor_lookup_witness :
    ∃ e, IndexColor dupPal 10 = some e ∧ dupPal[10]? = some e ∧ dupPal.getD 10 [] = e :=
  IndexColor_lookup dupPal (by decide) 10 (by decide)

/-- C16, as amended. A `0/SECTION` tag met after a resolved section header and
before that section's `0/ENDSEC` is not buffered: `Open` goes on to expect a
section-name tag, with the buffer, the reader and the calls unchanged; a next
tag whose trimmed code is not `2` is the error `invalid group code`; a next
tag `2/<name>` with a registered name makes that section the active one, with
the start line after the new header and the buffer kept. -/
theorem Open_section_inside_section {D : Type} (env : Env D) (pre : List Tag)
    (s : State D) (c0 v0 : String) (i : Int)
    (hreach : runLines env (initState env) (linesOf pre) = Step.next s)
    (hidle : s.setreader = false) (hin : s.reader = some i)
    (hc0 : env.TrimSpace c0 = "0") (hv0 : env.ToUpper v0 = "SECTION") :
    (∃ s1, runLines env (initState env) (linesOf pre ++ [c0, v0]) = Step.next s1 ∧
        s1.setreader = true ∧ s1.data = s.data ∧ s1.reader = some i ∧ s1.calls = s.calls) ∧
    (∀ (c1 v1 : String) (rest : List String) (scanErr : Option String),
        env.TrimSpace c1 ≠ "2" →
        Open env (Except.ok ⟨linesOf pre ++ c0 :: v0 :: c1 :: v1 :: rest, scanErr⟩) =
          ⟨Outcome.error (invalidGroupCode (2 * pre.length + 4) (env.TrimSpace c1)),
            some s.d, s.calls⟩) ∧
    (∀ (c1 v1 : String), env.TrimSpace c1 = "2" →
        0 ≤ env.SectionTypeValue (env.ToUpper v1) →
        ∃ s2, runLines env (initState env) (linesOf pre ++ [c0, v0, c1, v1]) = Step.next s2 ∧
          s2.setreader = false ∧ s2.data = s.data ∧
          s2.reader = some (env.SectionTypeValue (env.ToUpper v1)) ∧
          s2.startline = 2 * pre.length + 5 ∧ s2.calls = s.calls) := by
  have hl := reach_line env pre s hreach
  refine ⟨?_, ?_, ?_⟩
  · rw [runLines_append, hreach]
    simp only
    rw [tag_section env s c0 v0 [] (by omega) hidle hc0 hv0]
    exact ⟨_, rfl, rfl, rfl, hin, rfl⟩
  · intro c1 v1 rest scanErr hc1
    unfold Open
    simp only
    rw [runLines_append, hreach]
    simp only
    rw [tag_section env s c0 v0 _ (by omega) hidle hc0 hv0,
      tag_header_bad_code env _ c1 v1 rest (by simp only; omega) rfl hc1]
    simp only [hl]
  · intro c1 v1 hc1 hname
    rw [runLines_append, hreach]
    simp only
    rw [tag_section env s c0 v0 _ (by omega) hidle hc0 hv0,
      tag_header_ok env _ c1 v1 [] (by simp only; omega) rfl hc1 hname]
    refine ⟨_, rfl, rfl, rfl, rfl, ?_, rfl⟩
    simp only
    omega

/-- C16, witness: the amended claim after `0/SECTION`, `2/ENTITIES`, `0/VERTEX`. -/
theorem Open_section_inside_section_witness :
    (∃ s1, runLines recEnv (initState recEnv)
          (linesOf [("0", "SECTION"), ("2", "ENTITIES"), ("0", "VERTEX")] ++ ["0", "SECTION"]) =
          Step.next s1 ∧
        s1.setreader = true ∧ s1.data = [("0", "VERTEX")] ∧ s1.reader = some 4 ∧
        s1.calls = []) ∧
    (∀ (c1 v1 : String) (rest : List String) (scanErr : Option String),
        recEnv.TrimSpace c1 ≠ "2" →
        Open recEnv (Except.ok
          ⟨linesOf [("0", "SECTION"), ("2", "ENTITIES"), ("0", "VERTEX")] ++
            "0" :: "SECTION" :: c1 :: v1 :: rest, scanErr⟩) =
          ⟨Outcome.error (invalidGroupCode
              (2 * [("0", "SECTION"), ("2", "ENTITIES"), ("0", "VERTEX")].length + 4)
              (recEnv.TrimSpace c1)),
            some [], []⟩) ∧
    (∀ (c1 v1 : String), recEnv.TrimSpace c1 = "2" →
        0 ≤ recEnv.SectionTypeValue (recEnv.ToUpper v1) →
        ∃ s2, runLines recEnv (initState recEnv)
            (linesOf [("0", "SECTION"), ("2", "ENTITIES"), ("0", "VERTEX")] ++
              ["0", "SECTION", c1, v1]) = Step.next s2 ∧
          s2.setreader = false ∧ s2.data = [("0", "VERTEX")] ∧
          s2.reader = some (recEnv.SectionTypeValue (recEnv.ToUpper v1)) ∧
          s2.startline = 2 * [("0", "SECTION"), ("2", "ENTITIES"), ("0", "VERTEX")].length + 5 ∧
          s2.calls = []) :=
  Open_section_inside_section recEnv [("0", "SECTION"), ("2", "ENTITIES"), ("0", "VERTEX")]
    { d := [], code := "0", reader := some 4, data := [("0", "VERTEX")], setreader := false,
      line := 6, startline := 5, calls := [] }
    "0" "SECTION" 4 rfl rfl rfl (by decide) (by decide)

/-- C16, counterexample: in `0/SECTION`, `2/ENTITIES`, `0/VERTEX`, `0/SECTION`,
`2/TABLES`, `0/ENDSEC` the second `0/SECTION` is not buffered and `2/TABLES` is
read as a header: the one call goes to the `TABLES` slot 2, not to the
`ENTITIES` slot 4, with start line 11 and the single tag `0/VERTEX`. -/
theorem Open_section_inside_section_not_buffered :
    (Open recEnv (Except.ok ⟨["0", "SECTION", "2", "ENTITIES", "0", "VERTEX",
        "0", "SECTION", "2", "TABLES", "0", "ENDSEC"], none⟩)).calls =
      [⟨some 2, 11, [("0", "VERTEX")]⟩] := by
  decide

/-- C17, as amended. For a palette of RGB byte triples: (1) when it is
non-empty, has at most 256 entries, and the triple has components in 0..255,
every squared distance is at most 195075, the first entry replaces the bound
1000000, and `ColorIndex` returns the lowest-index minimiser; (2) when the
components of the triple lie between -2^30 and 2^30 and every entry is at
squared distance 1000000 or more, `ColorIndex` returns 0. -/
theorem ColorIndex_bound (pal : Palette) (hwf : WfPalette pal) :
    (∀ cl : List Int, pal ≠ [] → pal.length ≤ 256 → cl.length = 3 →
      (∀ x ∈ cl, 0 ≤ x ∧ x ≤ 255) →
      (∀ e ∈ pal, sqDist cl e ≤ 195075) ∧
      (∀ e rest, pal = e :: rest →
        colorScan cl pal 0 0 1000000 =
          if sqDist cl e = 0 then some 0 else colorScan cl rest 1 0 (sqDist cl e)) ∧
      ∃ i, ColorIndex pal cl = some i ∧ i < pal.length ∧
        (∀ j, j < pal.length → sqDist cl (pal.getD i []) ≤ sqDist cl (pal.getD j [])) ∧
        (∀ j, j < i → sqDist cl (pal.getD i []) < sqDist cl (pal.getD j []))) ∧
    (∀ cl : List Int, 3 ≤ cl.length →
      (∀ j, j < 3 → -1073741824 ≤ cl.getD j 0 ∧ cl.getD j 0 ≤ 1073741824) →
      (∀ e ∈ pal, 1000000 ≤ sqDist cl e) → ColorIndex pal cl = some 0) := by
  refine ⟨?_, ?_⟩
  · intro cl hne hlen hcl hb
    have hle : ∀ e ∈ pal, sqDist cl e ≤ 195075 :=
      fun e he => sqDist_le_of_bytes cl e hcl hb (hwf e he)
    obtain ⟨e0, he0⟩ := List.exists_mem_of_ne_nil pal hne
    have hnear : ∃ e ∈ pal, sqDist cl e < 1000000 :=
      ⟨e0, he0, lt_of_le_of_lt (hle e0 he0) (by decide)⟩
    refine ⟨hle, ?_, ?_⟩
    · intro e rest hp
      have hr : InRange cl := inRange_of_near cl e0 (by omega) (hwf e0 he0)
        (lt_of_le_of_lt (hle e0 he0) (by decide))
      have hem : e ∈ pal := by rw [hp]; exact List.mem_cons_self _ _
      have hlt : sqDist cl e < 1000000 := lt_of_le_of_lt (hle e hem) (by decide)
      rw [hp]
      simp only [colorScan, tmpvalOf_eq cl e hr (hwf e hem), if_pos hlt, Nat.zero_add]
    · obtain ⟨k, hk, ⟨h1, h2, h3⟩, _⟩ :=
        colorIndex_firstMin pal cl hwf hlen (by omega) hnear
      exact ⟨k, hk, h1, h2, h3⟩
  · intro cl hcl hr hfar
    unfold ColorIndex
    rw [colorScan_of_le cl ⟨hcl, hr⟩ pal hwf 0 0 1000000 hfar]
    rfl

/-- C17, witness: the amended claim at the black-and-white palette. -/
theorem ColorIndex_bound_witness :
    (∀ cl : List Int, smallPal ≠ [] → smallPal.length ≤ 256 → cl.length = 3 →
      (∀ x ∈ cl, 0 ≤ x ∧ x ≤ 255) →
      (∀ e ∈ smallPal, sqDist cl e ≤ 195075) ∧
      (∀ e rest, smallPal = e :: rest →
        colorScan cl smallPal 0 0 1000000 =
          if sqDist cl e = 0 then some 0 else colorScan cl rest 1 0 (sqDist cl e)) ∧
      ∃ i, ColorIndex smallPal cl = some i ∧ i < smallPal.length ∧
        (∀ j, j < smallPal.length →
          sqDist cl (smallPal.getD i []) ≤ sqDist cl (smallPal.getD j [])) ∧
        (∀ j, j < i → sqDist cl (smallPal.getD i []) < sqDist cl (smallPal.getD j []))) ∧
    (∀ cl : List Int, 3 ≤ cl.length →
      (∀ j, j < 3 → -1073741824 ≤ cl.getD j 0 ∧ cl.getD j 0 ≤ 1073741824) →
      (∀ e ∈ smallPal, 1000000 ≤ sqDist cl e) → ColorIndex smallPal cl = some 0) :=
  ColorIndex_bound smallPal (by decide)

/-- C17, counterexample: for the triple (2^32 + 1, 0, 0) both entries of the
palette black, (1, 0, 0) are at squared distance above 1000000, yet the 64-bit
square against (1, 0, 0) wraps to 0 and `ColorIndex` returns 1. -/
theorem ColorIndex_far_overflow :
    (∀ e ∈ darkPal, 1000000 ≤ sqDist [4294967297, 0, 0] e) ∧
      ColorIndex darkPal [4294967297, 0, 0] = some 1 := by
  decide

/-- C18. `Open` calls a parser through the nil `reader` exactly when a
`0/ENDSEC` tag, or the end of input with a non-empty buffer, is reached while
`reader` is still nil; `reader` is set only when a section header resolves;
hence a stream that starts with `0/SECTION` and a registered `2/<name>` never
calls a parser without a section, while the one-tag streams `0/ENDSEC` and
`0/FOO` (any plain tag) do. -/
theorem Open_nil_reader {D : Type} (env : Env D) :
    (∀ (lines : List String) (scanErr : Option String),
      (Open env (Except.ok ⟨lines, scanErr⟩)).outcome = Outcome.nilDeref ↔
        NilAtEndsec env lines ∨ NilAtEnd env lines scanErr) ∧
    (∀ (t t' : State D) (l : String), stepLine env t l = Step.next t' →
      t'.reader = t.reader ∨
        (t.setreader = true ∧ t.code = "2" ∧ 0 ≤ env.SectionTypeValue (env.ToUpper l) ∧
          t'.reader = some (env.SectionTypeValue (env.ToUpper l)))) ∧
    (∀ (c0 v0 c1 v1 : String) (rest : List String) (scanErr : Option String),
      env.TrimSpace c0 = "0" → env.ToUpper v0 = "SECTION" → env.TrimSpace c1 = "2" →
      0 ≤ env.SectionTypeValue (env.ToUpper v1) →
      (Open env (Except.ok ⟨c0 :: v0 :: c1 :: v1 :: rest, scanErr⟩)).outcome ≠
          Outcome.nilDeref ∧
        ∀ c ∈ (Open env (Except.ok ⟨c0 :: v0 :: c1 :: v1 :: rest, scanErr⟩)).calls,
          c.slot ≠ none) ∧
    (∀ (c v : String), env.TrimSpace c = "0" → env.ToUpper v = "ENDSEC" →
      Open env (Except.ok ⟨[c, v], none⟩) =
        ⟨Outcome.nilDeref, some env.NewDrawing, [⟨none, 0, []⟩]⟩) ∧
    (∀ (c v : String), IsPlain env (c, v) →
      Open env (Except.ok ⟨[c, v], none⟩) =
        ⟨Outcome.nilDeref, some env.NewDrawing, [⟨none, 0, [(env.TrimSpace c, v)]⟩]⟩) := by
  refine ⟨?_, fun t t' l h => stepLine_reader_set env t t' l h, ?_, ?_, ?_⟩
  · intro lines scanErr
    unfold Open
    simp only
    constructor
    · intro h
      cases hrun : runLines env (initState env) lines with
      | ret r =>
        rw [hrun] at h
        left
        exact runLines_nilDeref env lines (initState env) r hrun h
      | next s =>
        rw [hrun] at h
        right
        obtain ⟨h1, h2, h3⟩ := (finish_nilDeref env scanErr s).mp h
        exact ⟨h1, s, hrun, h2, h3⟩
    · rintro (⟨a, v, rest, s, h1, h2, h3, h4, h5, h6, h7⟩ | ⟨h1, s, h2, h3, h4⟩)
      · rw [h1, runLines_append, h2]
        simp only [runLines, stepLine_at_endsec_nil env s v h3 h4 h5 h6 h7]
      · rw [h2]
        exact (finish_nilDeref env scanErr s).mpr ⟨h1, h3, h4⟩
  · intro c0 v0 c1 v1 rest scanErr hc0 hv0 hc1 hname
    have hrun : runLines env (initState env) (c0 :: v0 :: c1 :: v1 :: rest) =
        runLines env { initState env with
          line := 4, code := env.TrimSpace c1,
          reader := some (env.SectionTypeValue (env.ToUpper v1)),
          startline := 5, setreader := false } rest := by
      rw [tag_section env (initState env) c0 v0 _ rfl rfl hc0 hv0,
        tag_header_ok env _ c1 v1 _ (by simp [initState]) rfl hc1 hname]
      rfl
    unfold Open
    simp only
    rw [hrun]
    exact runLines_reader env rest _ scanErr (by simp) (by simp [initState]) _ rfl
  · intro c v hc hv
    unfold Open
    simp only
    rw [tag_endsec env (initState env) c v [] rfl rfl hc hv]
    rfl
  · intro c v hp
    unfold Open
    simp only
    rw [tag_plain env (initState env) c v [] rfl rfl hp]
    simp [runLines, finish, invoke, initState, callOf]

/-- C18, witness: with the sample registry the one-tag streams `0/ENDSEC` and
`0/FOO` end in a call without a section. -/
theorem Open_nil_reader_witness :
    Open recEnv (Except.ok ⟨["0", "ENDSEC"], none⟩) =
        ⟨Outcome.nilDeref, some recEnv.NewDrawing, [⟨none, 0, []⟩]⟩ ∧
      Open recEnv (Except.ok ⟨["0", "FOO"], none⟩) =
        ⟨Outcome.nilDeref, some recEnv.NewDrawing,
          [⟨none, 0, [(recEnv.TrimSpace "0", "FOO")]⟩]⟩ :=
  ⟨(Open_nil_reader recEnv).2.2.2.1 "0" "ENDSEC" (by decide) (by decide),
   (Open_nil_reader recEnv).2.2.2.2 "0" "FOO" (by decide)⟩

/-- C19. `Open` does not clear the buffer when it resolves a section header:
after the buffered tags `s.data`, a `0/SECTION` tag, a resolved header, plain
body tags and `0/ENDSEC`, the call goes to the header's slot with the start
line after the header and the earlier buffer ahead of the body tags; a
failing call ends `Open`, a successful one leaves an empty buffer; and no
other pass through the loop body empties the buffer. -/
theorem Open_buffer_kept_at_header {D : Type} (env : Env D) (pre : List Tag) (s : State D)
    (c0 v0 c1 v1 : String) (body : List Tag) (c2 v2 : String)
    (hreach : runLines env (initState env) (linesOf pre) = Step.next s)
    (hidle : s.setreader = false)
    (hc0 : env.TrimSpace c0 = "0") (hv0 : env.ToUpper v0 = "SECTION")
    (hc1 : env.TrimSpace c1 = "2") (hname : 0 ≤ env.SectionTypeValue (env.ToUpper v1))
    (hbody : ∀ t ∈ body, IsPlain env t)
    (hc2 : env.TrimSpace c2 = "0") (hv2 : env.ToUpper v2 = "ENDSEC") :
    (∀ (e : String) (d' : D) (rest : List String) (scanErr : Option String),
      env.Read (env.SectionTypeValue (env.ToUpper v1)) (2 * pre.length + 5)
          (s.data ++ body.map (buffered env)) s.d = (some e, d') →
      Open env (Except.ok
          ⟨linesOf pre ++ c0 :: v0 :: c1 :: v1 :: (linesOf body ++ c2 :: v2 :: rest), scanErr⟩) =
        ⟨Outcome.error e, some d',
          s.calls ++ [⟨some (env.SectionTypeValue (env.ToUpper v1)), 2 * pre.length + 5,
            s.data ++ body.map (buffered env)⟩]⟩) ∧
    (∀ (d' : D),
      env.Read (env.SectionTypeValue (env.ToUpper v1)) (2 * pre.length + 5)
          (s.data ++ body.map (buffered env)) s.d = (none, d') →
      ∃ s2, runLines env (initState env)
          (linesOf pre ++ c0 :: v0 :: c1 :: v1 :: (linesOf body ++ [c2, v2])) = Step.next s2 ∧
        s2.data = [] ∧ s2.d = d' ∧
        s2.calls = s.calls ++ [⟨some (env.SectionTypeValue (env.ToUpper v1)),
          2 * pre.length + 5, s.data ++ body.map (buffered env)⟩]) ∧
    (∀ (t t' : State D) (l : String), stepLine env t l = Step.next t' →
      t.data <+: t'.data ∨ (t'.data = [] ∧ t'.calls = t.calls ++ [callOf t])) := by
  have hl := reach_line env pre s hreach
  refine ⟨?_, ?_, fun t t' l h => stepLine_data env t t' l h⟩
  · intro e d' rest scanErr hread
    obtain ⟨code', hb⟩ := runLines_header_body env s c0 v0 c1 v1 body (c2 :: v2 :: rest)
      (by omega) hidle hc0 hv0 hc1 hname hbody
    have e5 : s.line + 5 = 2 * pre.length + 5 := by omega
    unfold Open
    simp only
    rw [runLines_append, hreach]
    simp only
    rw [hb, tag_endsec env _ c2 v2 rest (by simp only; omega) rfl hc2 hv2]
    simp only [invoke, callOf, e5, hread]
  · intro d' hread
    obtain ⟨code', hb⟩ := runLines_header_body env s c0 v0 c1 v1 body [c2, v2]
      (by omega) hidle hc0 hv0 hc1 hname hbody
    have e5 : s.line + 5 = 2 * pre.length + 5 := by omega
    rw [runLines_append, hreach]
    simp only
    rw [hb, tag_endsec env _ c2 v2 [] (by simp only; omega) rfl hc2 hv2]
    simp only [invoke, callOf, e5, hread]
    exact ⟨_, rfl, rfl, rfl, rfl⟩

/-- C19, witness: in `999/note`, `0/SECTION`, `2/ENTITIES`, `0/VERTEX`, `0/ENDSEC`
the tag `999/note` reaches the `ENTITIES` parser ahead of `0/VERTEX`, with the
start line 2 * 1 + 5 = 7. -/
theorem Open_buffer_kept_at_header_witness :
    (∀ (e : String) (d' : List (Int × List Tag)) (rest : List String)
        (scanErr : Option String),
      recEnv.Read (recEnv.SectionTypeValue (recEnv.ToUpper "ENTITIES"))
          (2 * [("999", "note")].length + 5)
          ([("999", "note")] ++ [("0", "VERTEX")].map (buffered recEnv)) [] = (some e, d') →
      Open recEnv (Except.ok
          ⟨linesOf [("999", "note")] ++ "0" :: "SECTION" :: "2" :: "ENTITIES" ::
            (linesOf [("0", "VERTEX")] ++ "0" :: "ENDSEC" :: rest), scanErr⟩) =
        ⟨Outcome.error e, some d',
          [] ++ [⟨some (recEnv.SectionTypeValue (recEnv.ToUpper "ENTITIES")),
            2 * [("999", "note")].length + 5,
            [("999", "note")] ++ [("0", "VERTEX")].map (buffered recEnv)⟩]⟩) ∧
    (∀ (d' : List (Int × List Tag)),
      recEnv.Read (recEnv.SectionTypeValue (recEnv.ToUpper "ENTITIES"))
          (2 * [("999", "note")].length + 5)
          ([("999", "note")] ++ [("0", "VERTEX")].map (buffered recEnv)) [] = (none, d') →
      ∃ s2, runLines recEnv (initState recEnv)
          (linesOf [("999", "note")] ++ "0" :: "SECTION" :: "2" :: "ENTITIES" ::
            (linesOf [("0", "VERTEX")] ++ ["0", "ENDSEC"])) = Step.next s2 ∧
        s2.data = [] ∧ s2.d = d' ∧
        s2.calls = [] ++ [⟨some (recEnv.SectionTypeValue (recEnv.ToUpper "ENTITIES")),
          2 * [("999", "note")].length + 5,
          [("999", "note")] ++ [("0", "VERTEX")].map (buffered recEnv)⟩]) ∧
    (∀ (t t' : State (List (Int × List Tag))) (l : String),
      stepLine recEnv t l = Step.next t' →
      t.data <+: t'.data ∨ (t'.data = [] ∧ t'.calls = t.calls ++ [callOf t])) :=
  Open_buffer_kept_at_header recEnv [("999", "note")]
    { d := [], code := "999", reader := none, data := [("999", "note")], setreader := false,
      line := 2, startline := 0, calls := [] }
    "0" "SECTION" "2" "ENTITIES" [("0", "VERTEX")] "0" "ENDSEC" rfl rfl
    (by decide) (by decide) (by decide) (by decide) (by decide) (by decide) (by decide)

end Dxf
